import Mathlib

/-!
# Elastos SPV wallet: transaction outputs, payloads and the SPV service

A shallow embedding of `TransactionOutput.cpp`, `PayloadWithDrawAsset.cpp`, the load path,
the event handlers and the reconnect state machine of `SpvService.cpp`, and the comparisons of
`BRUtilMath.h`, followed by the properties established about them.

Machine integers are natural numbers together with explicit range conditions; a
fixed-size hash (`UInt256`, `UInt168`) is the natural number whose little-endian
bytes are its `u8` array.
-/

namespace Elastos.ElaWallet

/-! ## Bytes and the byte stream -/

/-- One octet. -/
abbrev Byte := Fin 256

/-- The `k` low-order bytes of `n`, least significant first. -/
def toLE : Nat → Nat → List Byte
  | 0, _ => []
  | k + 1, n => ⟨n % 256, Nat.mod_lt n (by decide)⟩ :: toLE k (n / 256)

/-- The number whose little-endian bytes are `bs`. -/
def fromLE : List Byte → Nat
  | [] => 0
  | b :: bs => b.val + 256 * fromLE bs

/-- Modelled from the spec: `ByteStream` (SDK/Common/ByteStream.h is not among the sources).
"Numeric fields are fixed-width little-endian"; "on any short read ... it returns failure".
A writer is the list of bytes written so far, a reader is the list of bytes not yet read.
A read that fails leaves its target and the read position as they were. -/
abbrev ByteStream := List Byte

namespace ByteStream

/-- Modelled from the spec: `writeBytes(buf, len)` appends the `len` bytes of a fixed-size value. -/
def writeBytes (s : ByteStream) (len : Nat) (buf : Nat) : ByteStream := s ++ toLE len buf

/-- Modelled from the spec: `writeUint8` appends one byte. -/
def writeUint8 (s : ByteStream) (v : Nat) : ByteStream := s ++ toLE 1 v

/-- Modelled from the spec: `writeUint32` appends four little-endian bytes. -/
def writeUint32 (s : ByteStream) (v : Nat) : ByteStream := s ++ toLE 4 v

/-- Modelled from the spec: `writeUint64` appends eight little-endian bytes. -/
def writeUint64 (s : ByteStream) (v : Nat) : ByteStream := s ++ toLE 8 v

/-- Modelled from the spec: `readBytes(buf, len)` fails on a short read, otherwise yields the
value of the next `len` bytes and the advanced stream. -/
def readBytes (s : ByteStream) (len : Nat) : Option (Nat × ByteStream) :=
  if len ≤ s.length then some (fromLE (s.take len), s.drop len) else none

/-- Modelled from the spec: `readUint8`. -/
def readUint8 (s : ByteStream) : Option (Nat × ByteStream) := readBytes s 1

/-- Modelled from the spec: `readUint32`. -/
def readUint32 (s : ByteStream) : Option (Nat × ByteStream) := readBytes s 4

/-- Modelled from the spec: `readUint64`. -/
def readUint64 (s : ByteStream) : Option (Nat × ByteStream) := readBytes s 8

end ByteStream

/-! ## JSON values -/

/-- A JSON value as manipulated through `nlohmann::json`: only the constructors the
embedded code touches. An object is its list of key/value bindings. -/
inductive Json where
  | null
  | num (n : Nat)
  | str (s : String)
  | arr (xs : List Json)
  | obj (kvs : List (String × Json))

namespace Json

/-- Replace or add the binding of `k` in a binding list. -/
def setKey (k : String) (v : Json) : List (String × Json) → List (String × Json)
  | [] => [(k, v)]
  | (k', v') :: rest => if k' = k then (k, v) :: rest else (k', v') :: setKey k v rest

/-- The assignment `j[k] = v`: a null value becomes an object first. -/
def set (j : Json) (k : String) (v : Json) : Json :=
  match j with
  | .obj kvs => .obj (setKey k v kvs)
  | _ => .obj [(k, v)]

/-- The read access `j[k]` on a constant value: absent when `j` is no object or lacks the key. -/
def get? (j : Json) (k : String) : Option Json :=
  match j with
  | .obj kvs => (kvs.find? (fun kv => kv.1 = k)).map Prod.snd
  | _ => none

/-- The keys of an object. -/
def keys : Json → List String
  | .obj kvs => kvs.map Prod.fst
  | _ => []

end Json

/-- How an operation can stop without returning: a dereferenced null payload pointer, or an
exception thrown by a JSON access. -/
inductive Fault where
  | nullDeref
  | jsonError
  deriving DecidableEq, Repr

/-- Read `j[k].get<uintN_t>()` for a `bits`-wide unsigned target. -/
def getUint (j : Json) (k : String) (bits : Nat) : Except Fault Nat :=
  match j.get? k with
  | some (.num n) => .ok (n % 2 ^ bits)
  | _ => .error .jsonError

/-- Read `j[k].get<std::string>()`. -/
def getString (j : Json) (k : String) : Except Fault String :=
  match j.get? k with
  | some (.str s) => .ok s
  | _ => .error .jsonError

/-! ## Output payload classes -/

/-- The interface of an output payload class. `PayloadDefault` and `PayloadVote` are declared
outside the sources (Payload/OutputPayload/*.h), so each is taken as a parameter: its data, the
value built by its default constructor, the bytes its `Serialize` appends, its `Deserialize`
(result flag, object afterwards, stream afterwards) and its JSON pair. -/
structure PayloadClass where
  Data : Type
  init : Data
  Serialize : Data → List Byte
  Deserialize : Data → ByteStream → Bool × Data × ByteStream
  toJson : Data → Json
  fromJson : Data → Json → Except Fault Data

/-- The constants and helpers `TransactionOutput.cpp` takes from headers outside the sources:
`Transaction::TxVersion::V09`, the enumerators of `TransactionOutput::Type` (as their one-byte
values, distinct because both label one `switch`), the two payload classes, and the string
conversions of `Utils`. -/
structure Params where
  V09 : Nat
  Default : Byte
  VoteOutput : Byte
  distinct : Default ≠ VoteOutput
  PayloadDefault : PayloadClass
  PayloadVote : PayloadClass
  UInt256ToString : Nat → Bool → String
  UInt256FromString : String → Bool → Nat
  UInt168ToString : Nat → String
  UInt168FromString : String → Nat
  UInt168FromAddress : Nat → String → Bool × Nat

/-- The object behind an `OutputPayloadPtr`: a `PayloadDefault` or a `PayloadVote`. -/
inductive OutputPayload (P : Params) where
  | Default (d : P.PayloadDefault.Data)
  | Vote (d : P.PayloadVote.Data)

namespace OutputPayload

variable {P : Params}

/-- Virtual `Serialize(ostream)`: the bytes appended. -/
def Serialize : OutputPayload P → List Byte
  | .Default d => P.PayloadDefault.Serialize d
  | .Vote d => P.PayloadVote.Serialize d

/-- Virtual `Deserialize(istream)`. -/
def Deserialize : OutputPayload P → ByteStream → Bool × OutputPayload P × ByteStream
  | .Default d, s => let r := P.PayloadDefault.Deserialize d s; (r.1, .Default r.2.1, r.2.2)
  | .Vote d, s => let r := P.PayloadVote.Deserialize d s; (r.1, .Vote r.2.1, r.2.2)

/-- Virtual `toJson()`. -/
def toJson : OutputPayload P → Json
  | .Default d => P.PayloadDefault.toJson d
  | .Vote d => P.PayloadVote.toJson d

/-- Virtual `fromJson(j)`. -/
def fromJson : OutputPayload P → Json → Except Fault (OutputPayload P)
  | .Default d, j => (P.PayloadDefault.fromJson d j).map .Default
  | .Vote d, j => (P.PayloadVote.fromJson d j).map .Vote

/-- The payload is a `PayloadDefault`. -/
def isDefault : OutputPayload P → Bool
  | .Default _ => true
  | .Vote _ => false

/-- The payload is a `PayloadVote`. -/
def isVote : OutputPayload P → Bool
  | .Default _ => false
  | .Vote _ => true

end OutputPayload

/-! ## TransactionOutput -/

/-- Modelled from the spec: `sizeof(UInt256)` in bytes, for the "asset id (256-bit)". -/
abbrev sizeofUInt256 : Nat := 32

/-- Modelled from the spec: `sizeof(UInt168)` in bytes, for the "recipient program hash
(168-bit)". -/
abbrev sizeofUInt168 : Nat := 21

/-- The members of `TransactionOutput`; `_payload` is a pointer, absent when null. -/
structure TransactionOutput (P : Params) where
  _assetId : Nat
  _amount : Nat
  _outputLock : Nat
  _programHash : Nat
  _outputType : Byte
  _payload : Option (OutputPayload P)

namespace TransactionOutput

variable {P : Params}

/-- Embeds `TransactionOutput::GeneratePayload`. -/
def GeneratePayload (P : Params) (type : Byte) : Option (OutputPayload P) :=
  if type = P.Default then some (.Default P.PayloadDefault.init)
  else if type = P.VoteOutput then some (.Vote P.PayloadVote.init)
  else none

/-- Embeds `TransactionOutput::TransactionOutput()`. -/
def new (P : Params) : TransactionOutput P :=
  { _assetId := 0, _amount := 0, _outputLock := 0, _programHash := 0,
    _outputType := P.Default, _payload := GeneratePayload P P.Default }

/-- Embeds `TransactionOutput(uint64_t a, const std::string &addr, const UInt256 &assetID, Type type,
const OutputPayloadPtr &payload)`. The program hash member is not initialised before
`UInt168FromAddress` fills it; it is zero here. -/
def ofAddress (P : Params) (a : Nat) (addr : String) (assetID : Nat) (type : Byte)
    (payload : Option (OutputPayload P)) : TransactionOutput P :=
  { _amount := a, _outputLock := 0, _outputType := type, _assetId := assetID,
    _programHash := (P.UInt168FromAddress 0 addr).2,
    _payload := match payload with
      | none => GeneratePayload P type
      | some p => some p }

/-- Embeds `TransactionOutput(uint64_t a, const UInt168 &programHash, const UInt256 &assetID, Type type,
const OutputPayloadPtr &payload)`. -/
def ofProgramHash (P : Params) (a : Nat) (programHash : Nat) (assetID : Nat) (type : Byte)
    (payload : Option (OutputPayload P)) : TransactionOutput P :=
  { _amount := a, _outputLock := 0, _outputType := type, _assetId := assetID,
    _programHash := programHash,
    _payload := match payload with
      | none => GeneratePayload P type
      | some p => some p }

/-- Embeds `TransactionOutput::SetType`. -/
def SetType (x : TransactionOutput P) (type : Byte) : TransactionOutput P :=
  { x with _outputType := type }

/-- Embeds `TransactionOutput::SetPayload`. -/
def SetPayload (x : TransactionOutput P) (payload : Option (OutputPayload P)) :
    TransactionOutput P :=
  { x with _payload := payload }

/-- Embeds `TransactionOutput::Serialize(ByteStream &ostream) const`. -/
def Serialize (x : TransactionOutput P) (ostream : ByteStream) : ByteStream :=
  let ostream := ostream.writeBytes sizeofUInt256 x._assetId
  let ostream := ostream.writeUint64 x._amount
  let ostream := ostream.writeUint32 x._outputLock
  ostream.writeBytes sizeofUInt168 x._programHash

/-- Embeds `TransactionOutput::Deserialize(ByteStream &istream)`: result flag, object afterwards,
stream afterwards. -/
def Deserialize (x : TransactionOutput P) (istream : ByteStream) :
    Bool × TransactionOutput P × ByteStream :=
  match istream.readBytes sizeofUInt256 with
  | none => (false, x, istream)
  | some (assetId, istream) =>
    let x := { x with _assetId := assetId }
    match istream.readUint64 with
    | none => (false, x, istream)
    | some (amount, istream) =>
      let x := { x with _amount := amount }
      match istream.readUint32 with
      | none => (false, x, istream)
      | some (lock, istream) =>
        let x := { x with _outputLock := lock }
        match istream.readBytes sizeofUInt168 with
        | none => (false, x, istream)
        | some (programHash, istream) => (true, { x with _programHash := programHash }, istream)

/-- Embeds `TransactionOutput::Serialize(ByteStream &ostream, uint8_t txVersion) const`. -/
def SerializeV (x : TransactionOutput P) (ostream : ByteStream) (txVersion : Nat) :
    Except Fault ByteStream :=
  let ostream := x.Serialize ostream
  if txVersion ≥ P.V09 then
    let ostream := ostream.writeUint8 x._outputType.val
    match x._payload with
    | none => .error .nullDeref
    | some p => .ok (ostream ++ p.Serialize)
  else .ok ostream

/-- Embeds `TransactionOutput::Deserialize(ByteStream &istream, uint8_t txVersion)`. -/
def DeserializeV (x : TransactionOutput P) (istream : ByteStream) (txVersion : Nat) :
    Except Fault (Bool × TransactionOutput P × ByteStream) :=
  match x.Deserialize istream with
  | (false, x, istream) => .ok (false, x, istream)
  | (true, x, istream) =>
    if txVersion ≥ P.V09 then
      match istream.readUint8 with
      | none => .ok (false, x, istream)
      | some (outputType, istream) =>
        let x := { x with _outputType := Fin.ofNat outputType }
        let x := { x with _payload := GeneratePayload P x._outputType }
        match x._payload with
        | none => .error .nullDeref
        | some p =>
          let r := p.Deserialize istream
          if r.1 then .ok (true, { x with _payload := some r.2.1 }, r.2.2)
          else .ok (false, { x with _payload := some r.2.1 }, r.2.2)
    else .ok (true, x, istream)

/-- Embeds `TransactionOutput::toJson() const`. -/
def toJson (x : TransactionOutput P) : Json :=
  let j := Json.null
  let j := j.set "Amount" (.num x._amount)
  let j := j.set "AssetId" (.str (P.UInt256ToString x._assetId true))
  let j := j.set "OutputLock" (.num x._outputLock)
  j.set "ProgramHash" (.str (P.UInt168ToString x._programHash))

/-- Embeds `TransactionOutput::fromJson(const nlohmann::json &j)`. -/
def fromJson (x : TransactionOutput P) (j : Json) : Except Fault (TransactionOutput P) := do
  let amount ← getUint j "Amount" 64
  let x := { x with _amount := amount }
  let assetId ← getString j "AssetId"
  let x := { x with _assetId := P.UInt256FromString assetId true }
  let lock ← getUint j "OutputLock" 32
  let x := { x with _outputLock := lock }
  let programHash ← getString j "ProgramHash"
  pure { x with _programHash := P.UInt168FromString programHash }

/-- Embeds `TransactionOutput::toJson(uint8_t txVersion) const`. -/
def toJsonV (x : TransactionOutput P) (txVersion : Nat) : Except Fault Json :=
  let j := x.toJson
  if txVersion ≥ P.V09 then
    let j := j.set "OutputType" (.num x._outputType.val)
    match x._payload with
    | none => .error .nullDeref
    | some p => .ok (j.set "Payload" p.toJson)
  else .ok j

/-- Embeds `TransactionOutput::fromJson(const nlohmann::json &j, uint8_t txVersion)`. -/
def fromJsonV (x : TransactionOutput P) (j : Json) (txVersion : Nat) :
    Except Fault (TransactionOutput P) := do
  let x ← x.fromJson j
  if txVersion ≥ P.V09 then
    let outputType ← getUint j "OutputType" 8
    let x := { x with _outputType := Fin.ofNat outputType }
    let x := { x with _payload := GeneratePayload P x._outputType }
    match x._payload with
    | none => .error .nullDeref
    | some p =>
      match j.get? "Payload" with
      | none => .error .jsonError
      | some jp =>
        let p ← p.fromJson jp
        pure { x with _payload := some p }
  else pure x

end TransactionOutput

/-! ## PayloadWithDrawAsset -/

/-- The members of `PayloadWithDrawAsset`. -/
structure PayloadWithDrawAsset where
  _blockHeight : Nat
  _genesisBlockAddress : String
  _sideChainTransactionHash : List Nat
  deriving DecidableEq, Repr

/-- An object seen through `const IPayload &`: a `PayloadWithDrawAsset`, or an object of some
other payload class (whose objects form the type `Other`). -/
inductive IPayload (Other : Type) where
  | withDrawAsset (p : PayloadWithDrawAsset)
  | other (o : Other)

namespace PayloadWithDrawAsset

/-- Embeds `PayloadWithDrawAsset::operator=(const PayloadWithDrawAsset &payload)`. -/
def assign (self payload : PayloadWithDrawAsset) : PayloadWithDrawAsset :=
  let self := { self with _blockHeight := payload._blockHeight }
  let self := { self with _genesisBlockAddress := payload._genesisBlockAddress }
  { self with _sideChainTransactionHash := payload._sideChainTransactionHash }

/-- The cast `dynamic_cast<const PayloadWithDrawAsset &>(payload)`: it throws `std::bad_cast`
(no value) on an object of another class. -/
def dynamicCast {Other : Type} : IPayload Other → Option PayloadWithDrawAsset
  | .withDrawAsset p => some p
  | .other _ => none

/-- Embeds `PayloadWithDrawAsset::operator=(const IPayload &payload)`: the object afterwards
and the lines logged. The `try` block either assigns or is left through the `catch`, which logs;
nothing leaves the function but its return. -/
def assignIPayload {Other : Type} (self : PayloadWithDrawAsset) (payload : IPayload Other) :
    PayloadWithDrawAsset × List String :=
  match dynamicCast payload with
  | some payloadWithDrawAsset => (self.assign payloadWithDrawAsset, [])
  | none => (self, ["payload is not instance of PayloadWithDrawAsset"])

end PayloadWithDrawAsset

/-! ## SpvService: loading the stored transactions -/

/-- What `loadTransactions` reads of a transaction input: `GetTransctionHash().GetHex()`. -/
structure TransactionInput where
  txHash : String
  deriving DecidableEq, Repr

/-- What `loadTransactions` reads of a transaction output through its getters. -/
structure TxOutput where
  address : String
  amount : Nat
  outputLock : Nat
  assetID : Nat
  programHash : Nat
  deriving DecidableEq, Repr

/-- What `loadTransactions` reads of a `Transaction` (Transaction.h is not among the sources):
`IsCoinBase()`, `GetHash().GetHex()`, `GetInputs()`, `GetOutputs()`, `GetBlockHeight()`,
`GetTimestamp()`. -/
structure Transaction where
  isCoinBase : Bool
  hash : String
  inputs : List TransactionInput
  outputs : List TxOutput
  blockHeight : Nat
  timestamp : Nat
  deriving DecidableEq, Repr

/-- A row of the transaction store, `TransactionEntity`. -/
structure TransactionEntity where
  buff : List Byte
  blockHeight : Nat
  timeStamp : Nat
  txHash : String
  deriving DecidableEq, Repr

/-- Modelled from the spec: `CoinBaseUTXOEntity` (declared outside the sources), "a reward-style
output record: spent flag, owning transaction hash, block height, timestamp, amount, lock, asset
id, program hash, output index, optional payload", created unspent and "mutated (spent flag)
when a later transaction is observed spending it". The payload is always set to null here and
is left out. -/
structure CoinBaseUTXOEntity where
  spent : Bool := false
  txHash : String := ""
  blockHeight : Nat := 0
  timestamp : Nat := 0
  amount : Nat := 0
  outputLock : Nat := 0
  assetID : Nat := 0
  programHash : Nat := 0
  index : Nat := 0
  deriving DecidableEq, Repr

/-- A call made on the database manager by `loadTransactions`. -/
inductive DbCall where
  | PutCoinBase (entitys : List CoinBaseUTXOEntity)
  | DeleteTxByHashes (hashes : List String)
  deriving DecidableEq, Repr

/-- Insertion into a `std::set<std::string>`, kept as its ascending list of distinct elements;
strings compare character by character. -/
def setInsert (h : String) : List String → List String
  | [] => [h]
  | x :: xs =>
    if h.data < x.data then h :: x :: xs else if h = x then x :: xs else x :: setInsert h xs

namespace SpvService

/-- The transaction object after lines 373-378: a fresh `Transaction` filled by `Deserialize`
(whose result flag is not looked at), then `SetBlockHeight` and `SetTimestamp`. `deserialize`
stands for `Transaction::Deserialize` on a fresh object: result flag and object afterwards. -/
def loadOne (deserialize : List Byte → Bool × Transaction) (e : TransactionEntity) : Transaction :=
  let tx := (deserialize e.buff).2
  let tx := { tx with blockHeight := e.blockHeight }
  { tx with timestamp := e.timeStamp }

/-- The loop `for (uint16_t n = 0; n < tx->GetOutputs().size(); ++n)` of lines 382-399, started
at counter `n` with `fuel` iterations allowed: `none` when the fuel runs out, otherwise the
entity pushed before the `break`, if any. The counter is 16 bits wide and wraps. -/
def scanOutputs (ContainsAddress : String → Bool) (tx : Transaction) :
    Nat → Nat → Option (Option CoinBaseUTXOEntity)
  | 0, _ => none
  | fuel + 1, n =>
    match tx.outputs[n]? with
    | none => some none
    | some o =>
      if ContainsAddress o.address then
        let entity : CoinBaseUTXOEntity := {}
        let entity := { entity with amount := o.amount }
        let entity := { entity with outputLock := o.outputLock }
        let entity := { entity with assetID := o.assetID }
        let entity := { entity with programHash := o.programHash }
        let entity := { entity with index := n }
        let entity := { entity with txHash := tx.hash }
        let entity := { entity with blockHeight := tx.blockHeight }
        let entity := { entity with timestamp := tx.timestamp }
        some (some entity)
      else scanOutputs ContainsAddress tx fuel ((n + 1) % 65536)

/-- The loop `for (uint16_t n = 0; n < tx->GetInputs().size(); ++n)` of lines 401-402, started
at counter `n` with `fuel` iterations allowed: `none` when the fuel runs out, otherwise the set
of spent hashes afterwards. The counter is 16 bits wide and wraps. -/
def scanInputs (tx : Transaction) : Nat → Nat → List String → Option (List String)
  | 0, _, _ => none
  | fuel + 1, n, spentHashes =>
    match tx.inputs[n]? with
    | none => some spentHashes
    | some i => scanInputs tx fuel ((n + 1) % 65536) (setInsert i.txHash spentHashes)

/-- The local variables of `loadTransactions`. -/
structure LoadState where
  txs : List Transaction := []
  coinBaseEntitys : List CoinBaseUTXOEntity := []
  spentHashes : List String := []
  coinBaseHashes : List String := []
  deriving DecidableEq, Repr

/-- One iteration of the loop over `txsEntity` (lines 372-406). -/
def loadStep (deserialize : List Byte → Bool × Transaction) (ContainsAddress : String → Bool)
    (fuel : Nat) (st : LoadState) (e : TransactionEntity) : Option LoadState :=
  let tx := loadOne deserialize e
  if tx.isCoinBase then
    let st := { st with coinBaseHashes := setInsert tx.hash st.coinBaseHashes }
    match scanOutputs ContainsAddress tx fuel 0 with
    | none => none
    | some none => some st
    | some (some entity) => some { st with coinBaseEntitys := st.coinBaseEntitys ++ [entity] }
  else
    match scanInputs tx fuel 0 st.spentHashes with
    | none => none
    | some spentHashes => some { st with spentHashes := spentHashes, txs := st.txs ++ [tx] }

/-- The loop over `txsEntity` (lines 372-406). -/
def loadLoop (deserialize : List Byte → Bool × Transaction) (ContainsAddress : String → Bool)
    (fuel : Nat) : LoadState → List TransactionEntity → Option LoadState
  | st, [] => some st
  | st, e :: es =>
    match loadStep deserialize ContainsAddress fuel st e with
    | none => none
    | some st => loadLoop deserialize ContainsAddress fuel st es

/-- The body of the lambda of lines 408-415 for one hash: the first entity with that
transaction hash is marked spent. -/
def markSpent (hash : String) : List CoinBaseUTXOEntity → List CoinBaseUTXOEntity
  | [] => []
  | e :: es => if e.txHash = hash then { e with spent := true } :: es else e :: markSpent hash es

/-- What `loadTransactions` does: the vector it returns and the database calls it makes. -/
structure LoadResult where
  txs : List Transaction
  calls : List DbCall
  deriving DecidableEq, Repr

/-- Embeds `SpvService::loadTransactions` on the rows `txsEntity` returned by
`GetAllTransactions`; each inner loop may take `fuel` iterations, and the result is `none` when
one of them does not finish within that. -/
def loadTransactions (deserialize : List Byte → Bool × Transaction)
    (ContainsAddress : String → Bool) (fuel : Nat) (txsEntity : List TransactionEntity) :
    Option LoadResult :=
  match loadLoop deserialize ContainsAddress fuel {} txsEntity with
  | none => none
  | some st =>
    let coinBaseEntitys := st.spentHashes.foldl (fun ents hash => markSpent hash ents)
      st.coinBaseEntitys
    let removeHashes := st.coinBaseHashes
    some { txs := st.txs,
           calls := [.PutCoinBase coinBaseEntitys, .DeleteTxByHashes removeHashes] }

/-- The records handed to the bulk `PutCoinBase` call. -/
def LoadResult.putCoinBase (r : LoadResult) : List CoinBaseUTXOEntity :=
  r.calls.foldr (fun c acc => match c with
    | .PutCoinBase es => es ++ acc
    | .DeleteTxByHashes _ => acc) []

end SpvService

/-! ## A concrete instantiation of the parameters -/

/-- A payload class without members: nothing is written and decoding always succeeds. -/
def emptyPayloadClass : PayloadClass where
  Data := Unit
  init := ()
  Serialize := fun _ => []
  Deserialize := fun d s => (true, d, s)
  toJson := fun _ => .obj []
  fromJson := fun d _ => .ok d

/-- A payload class with a single byte member, written as that byte. -/
def bytePayloadClass : PayloadClass where
  Data := Byte
  init := 0
  Serialize := fun d => [d]
  Deserialize := fun d s =>
    match s with
    | [] => (false, d, s)
    | b :: rest => (true, b, rest)
  toJson := fun d => .obj [("Version", .num d.val)]
  fromJson := fun _ j =>
    match j.get? "Version" with
    | some (.num n) => .ok (Fin.ofNat n)
    | _ => .error .jsonError

/-- Decimal digits of a string, read as a number. -/
def decimalValue (s : String) : Nat :=
  s.data.foldl (fun acc c => 10 * acc + (c.toNat - 48)) 0

/-- Sample parameters: `V09 = 9`, `Default = 0`, `VoteOutput = 1`, the two payload classes
above, and decimal strings for the hash conversions. -/
def sampleParams : Params where
  V09 := 9
  Default := 0
  VoteOutput := 1
  distinct := by decide
  PayloadDefault := emptyPayloadClass
  PayloadVote := bytePayloadClass
  UInt256ToString := fun n _ => toString n
  UInt256FromString := fun s _ => decimalValue s
  UInt168ToString := fun n => toString n
  UInt168FromString := fun s => decimalValue s
  UInt168FromAddress := fun _ s => (true, decimalValue s)

/-! ## Predicates used in the statements -/

namespace TransactionOutput

variable {P : Params}

/-- The members fit their C++ types: `UInt256`, `uint64_t`, `uint32_t`, `UInt168`. -/
def inRange (x : TransactionOutput P) : Prop :=
  x._assetId < 2 ^ 256 ∧ x._amount < 2 ^ 64 ∧ x._outputLock < 2 ^ 32 ∧ x._programHash < 2 ^ 168

instance (x : TransactionOutput P) : Decidable x.inRange := by
  unfold inRange; infer_instance

/-- The payload is non-null and of the class selected by the output type: a `PayloadDefault`
for `Default`, a `PayloadVote` for `VoteOutput`. -/
def payloadMatchesType (x : TransactionOutput P) : Bool :=
  match x._payload with
  | none => false
  | some (.Default _) => decide (x._outputType = P.Default)
  | some (.Vote _) => decide (x._outputType = P.VoteOutput)

end TransactionOutput

/-- A vote output over the sample parameters. -/
def voteSample : TransactionOutput sampleParams :=
  { _assetId := 5, _amount := 1000, _outputLock := 3, _programHash := 7,
    _outputType := 1, _payload := some (.Vote (42 : Byte)) }

/-- A default output over the sample parameters. -/
def defaultSample : TransactionOutput sampleParams :=
  { _assetId := 5, _amount := 1000, _outputLock := 3, _programHash := 7,
    _outputType := 0, _payload := some (.Default ()) }

namespace SpvService

/-- The record built for output `o` at index `n` of `tx` (lines 384-394). -/
def entityOf (tx : Transaction) (o : TxOutput) (n : Nat) : CoinBaseUTXOEntity :=
  { spent := false, txHash := tx.hash, blockHeight := tx.blockHeight,
    timestamp := tx.timestamp, amount := o.amount, outputLock := o.outputLock,
    assetID := o.assetID, programHash := o.programHash, index := n }

/-- The record of the first output, among `outs` numbered from `n`, whose address the
sub-account contains. -/
def firstOwnedFrom (ContainsAddress : String → Bool) (tx : Transaction) :
    List TxOutput → Nat → Option CoinBaseUTXOEntity
  | [], _ => none
  | o :: os, n =>
    if ContainsAddress o.address then some (entityOf tx o n)
    else firstOwnedFrom ContainsAddress tx os (n + 1)

/-- The records of the coinbase transactions of a list, one for each that has an owned
output, in list order. -/
def coinBaseEntitysOf (ContainsAddress : String → Bool) (txs : List Transaction) :
    List CoinBaseUTXOEntity :=
  txs.filterMap (fun tx =>
    if tx.isCoinBase then firstOwnedFrom ContainsAddress tx tx.outputs 0 else none)

/-- Some transaction of the list that is not coinbase has an input referencing `hash`. -/
def spentBy (txs : List Transaction) (hash : String) : Prop :=
  ∃ T ∈ txs, T.isCoinBase = false ∧ ∃ i ∈ T.inputs, i.txHash = hash

instance (txs : List Transaction) (hash : String) : Decidable (spentBy txs hash) := by
  unfold spentBy; infer_instance

/-- Every transaction of the list has fewer than 65536 inputs and fewer than 65536 outputs. -/
def countsFit (txs : List Transaction) : Prop :=
  ∀ tx ∈ txs, tx.inputs.length < 65536 ∧ tx.outputs.length < 65536

instance (txs : List Transaction) : Decidable (countsFit txs) := by
  unfold countsFit; infer_instance

/-- A sample decoder of stored rows: the row `[1]` is a coinbase transaction paying address
`"A"`, the row `[2]` a coinbase transaction with an input referencing the first one, every
other row an ordinary transaction with an input referencing the first one. -/
def sampleDeserialize (buff : List Byte) : Bool × Transaction :=
  if buff = [1] then
    (true, { isCoinBase := true, hash := "c0", inputs := [],
             outputs := [⟨"B", 1, 0, 0, 8⟩, ⟨"A", 50, 0, 0, 9⟩], blockHeight := 0,
             timestamp := 0 })
  else if buff = [2] then
    (true, { isCoinBase := true, hash := "c1", inputs := [⟨"c0"⟩],
             outputs := [⟨"B", 2, 0, 0, 8⟩], blockHeight := 0, timestamp := 0 })
  else
    (true, { isCoinBase := false, hash := "t2", inputs := [⟨"c0"⟩],
             outputs := [⟨"B", 3, 0, 0, 8⟩], blockHeight := 0, timestamp := 0 })

/-- The sample sub-account contains the address `"A"` only. -/
def sampleContains (address : String) : Bool := address = "A"

/-- The records of a list that carry the transaction hash `c`. -/
def recordsOf (c : String) (ents : List CoinBaseUTXOEntity) : List CoinBaseUTXOEntity :=
  ents.filter (fun e => decide (e.txHash = c))

/-- The first record of a list marked spent. -/
def markHead : List CoinBaseUTXOEntity → List CoinBaseUTXOEntity
  | [] => []
  | e :: es => { e with spent := true } :: es

end SpvService

/-! ## SpvService: blocks, peers and the session -/

/-- A row of the block store, `MerkleBlockEntity`. -/
structure MerkleBlockEntity where
  blockBytes : List Byte
  blockHeight : Nat
  deriving DecidableEq, Repr

/-- A row of the peer store, `PeerEntity`. -/
structure PeerEntity where
  address : Nat
  port : Nat
  timeStamp : Nat
  deriving DecidableEq, Repr

/-- The members of `PeerInfo` set by `PeerInfo(address, port, timeStamp)`. -/
structure PeerInfo where
  Address : Nat
  Port : Nat
  Timestamp : Nat
  deriving DecidableEq, Repr

/-- Modelled from the spec: the connection state of the network client,
"`connectionState() -> {Disconnected, Connecting, Connected}`" (`Peer::ConnectStatus`). -/
inductive ConnectStatus where
  | Disconnected
  | Connecting
  | Connected
  deriving DecidableEq, Repr

/-- The `boost::asio::deadline_timer` behind `_reconnectTimer`: the seconds until it expires
and whether a wait (with `PeerManager::AsyncConnect` as handler) is pending on it. -/
structure DeadlineTimer where
  expires : Nat
  waiting : Bool
  deriving DecidableEq, Repr

/-- A state-changing call the session makes on one of its collaborators, as recorded in the
trace; getters and log lines are not recorded. -/
inductive Call where
  | SetReconnectEnableStatus (status : Bool)
  | SetReconnectTaskCount (count : Nat)
  | Disconnect
  | Connect
  | PublishTransaction (tx : Transaction)
  | Lock
  | Unlock
  | SetPeers (peers : List PeerInfo)
  | GetAllPeers
  | timerCancel
  | timerNew (seconds : Nat)
  | timerAsyncWait
  | timerExpiresAt (seconds : Nat)
  | serviceRestart
  | serviceRunOne
  | executorStopThread
  | executorInitThread (count : Nat)
  | reconnectExecutorStopThread
  deriving DecidableEq, Repr

/-- Modelled from the spec: what `PeerManager::Connect`, `Disconnect` and `PublishTransaction`
(PeerManager.cpp is not among the sources) do to the connection state. By the "network client
capability" of the spec, the auto-reconnect flag, the outstanding-reconnect count and the peer
list are set through `setAutoReconnect`, `setOutstandingReconnectCount` and `setPeers`. -/
structure PeerManagerModel where
  Connect : ConnectStatus → ConnectStatus
  Disconnect : ConnectStatus → ConnectStatus
  PublishTransaction : ConnectStatus → ConnectStatus

namespace SpvService

/-- Embeds `#define BACKGROUND_THREAD_COUNT 1`. -/
abbrev BACKGROUND_THREAD_COUNT : Nat := 1

/-- The state of a session: the peer manager's auto-reconnect flag, outstanding-reconnect
count, connection state and peer list, the member `_reconnectTimer` (absent when null), the
rows of the peer store, and the trace of calls made so far. -/
structure State where
  reconnectEnableStatus : Bool
  reconnectTaskCount : Nat
  connectStatus : ConnectStatus
  peers : List PeerInfo
  _reconnectTimer : Option DeadlineTimer
  peerStore : List PeerEntity
  trace : List Call
  deriving DecidableEq, Repr

namespace State

/-- The call `SetReconnectEnableStatus(status)` on the peer manager. -/
def SetReconnectEnableStatus (s : State) (status : Bool) : State :=
  { s with reconnectEnableStatus := status,
           trace := s.trace ++ [.SetReconnectEnableStatus status] }

/-- The call `SetReconnectTaskCount(count)` on the peer manager. -/
def SetReconnectTaskCount (s : State) (count : Nat) : State :=
  { s with reconnectTaskCount := count, trace := s.trace ++ [.SetReconnectTaskCount count] }

/-- The call `Disconnect()` on the peer manager. -/
def Disconnect (M : PeerManagerModel) (s : State) : State :=
  { s with connectStatus := M.Disconnect s.connectStatus, trace := s.trace ++ [.Disconnect] }

/-- The call `Connect()` on the peer manager. -/
def Connect (M : PeerManagerModel) (s : State) : State :=
  { s with connectStatus := M.Connect s.connectStatus, trace := s.trace ++ [.Connect] }

/-- The call `PublishTransaction(transaction)` on the peer manager. -/
def PublishTransaction (M : PeerManagerModel) (s : State) (tx : Transaction) : State :=
  { s with connectStatus := M.PublishTransaction s.connectStatus,
           trace := s.trace ++ [.PublishTransaction tx] }

/-- The call `SetPeers(peers)` on the peer manager. -/
def SetPeers (s : State) (peers : List PeerInfo) : State :=
  { s with peers := peers, trace := s.trace ++ [.SetPeers peers] }

/-- The call `_reconnectTimer->cancel()`: a pending wait is abandoned. -/
def timerCancel (s : State) : State :=
  { s with _reconnectTimer := s._reconnectTimer.map (fun t => { t with waiting := false }),
           trace := s.trace ++ [.timerCancel] }

/-- A call that changes none of the modelled members and is only recorded. -/
def record (s : State) (c : Call) : State :=
  { s with trace := s.trace ++ [c] }

end State

/-- Embeds `SpvService::Start`. -/
def Start (M : PeerManagerModel) (s : State) : State :=
  let s := s.SetReconnectEnableStatus true
  s.Connect M

/-- Embeds `SpvService::Stop`. -/
def Stop (M : PeerManagerModel) (s : State) : State :=
  let s :=
    match s._reconnectTimer with
    | some _ => { s.timerCancel with _reconnectTimer := none }
    | none => s
  let s := s.SetReconnectTaskCount 0
  let s := s.SetReconnectEnableStatus false
  let s := s.Disconnect M
  let s := s.record .executorStopThread
  s.record .reconnectExecutorStopThread

/-- Embeds `SpvService::PublishTransaction`; the JSON and byte forms of the transaction are
only logged. -/
def PublishTransaction (M : PeerManagerModel) (s : State) (transaction : Transaction) : State :=
  let s :=
    if s.connectStatus ≠ .Connected then
      let s := s.SetReconnectEnableStatus false
      let s :=
        match s._reconnectTimer with
        | some _ => s.timerCancel
        | none => s
      let s := s.Disconnect M
      let s := s.SetReconnectEnableStatus true
      s.Connect M
    else s
  s.PublishTransaction M transaction

/-- Embeds `SpvService::loadPeers`: the `PeerInfo` vector built from the rows returned by
`GetAllPeers`. -/
def loadPeers (peersEntity : List PeerEntity) : List PeerInfo :=
  peersEntity.map (fun e => { Address := e.address, Port := e.port, Timestamp := e.timeStamp })

/-- Embeds `SpvService::StartReconnect` up to the point where `run_one()` starts waiting: a new
timer of `time` seconds replaces `_reconnectTimer`, the peers are seeded from the store when
the peer manager has none, and the wait with handler `PeerManager::AsyncConnect` is registered.
The handler itself runs later, when the timer fires or is cancelled. -/
def StartReconnect (s : State) (time : Nat) : State :=
  let s : State := { s with _reconnectTimer := some { expires := time, waiting := false },
                            trace := s.trace ++ [Call.timerNew time] }
  let s := s.record .Lock
  let s :=
    if s.peers.isEmpty then
      let s := s.record .GetAllPeers
      let peers := loadPeers s.peerStore
      s.SetPeers peers
    else s
  let s := s.record .Unlock
  let s : State :=
    { s with _reconnectTimer := s._reconnectTimer.map (fun t => { t with waiting := true }),
             trace := s.trace ++ [Call.timerAsyncWait] }
  let s := s.record .serviceRestart
  s.record .serviceRunOne

/-- Embeds `SpvService::syncIsInactive`. -/
def syncIsInactive (M : PeerManagerModel) (s : State) (time : Nat) : State :=
  if s.reconnectEnableStatus ∧ s.reconnectTaskCount = 0 then
    let s :=
      match s._reconnectTimer with
      | some _ => { s.timerCancel with _reconnectTimer := none }
      | none => s
    let s := s.SetReconnectTaskCount (s.reconnectTaskCount + 1)
    let s := s.record .executorStopThread
    let s := s.SetReconnectEnableStatus false
    let s := if s.connectStatus = .Connected then s.Disconnect M else s
    let s := s.record (.executorInitThread BACKGROUND_THREAD_COUNT)
    let s := s.SetReconnectEnableStatus true
    StartReconnect s time
  else s

/-- Embeds `SpvService::networkIsReachable`; `answers` are the results of the registered
listeners' own `networkIsReachable()`, in registration order. -/
def networkIsReachable (answers : List Bool) : Bool :=
  answers.foldl (fun reachable answer => reachable || answer) true

/-- Embeds `SpvService::loadBlocks` on the rows `blocksEntity` returned by
`GetAllMerkleBlocks`: the vector returned and the lines logged. `CreateMerkleBlock` is the
fresh block of the registry, `SetHeight` and `Deserialize` (result flag and block afterwards)
are those of `MerkleBlock`, which is declared outside the sources. -/
def loadBlocks {Block : Type} (CreateMerkleBlock : Block) (SetHeight : Block → Nat → Block)
    (Deserialize : Block → List Byte → Bool × Block) :
    List MerkleBlockEntity → List Block × List String
  | [] => ([], [])
  | e :: es =>
    let block := CreateMerkleBlock
    let block := SetHeight block e.blockHeight
    let r := Deserialize block e.blockBytes
    let log := if !r.1 then ["block deserialize fail"] else []
    let rest := loadBlocks CreateMerkleBlock SetHeight Deserialize es
    (r.2 :: rest.1, log ++ rest.2)

end SpvService

/-- A sample peer manager: connecting leads to `Connected`, disconnecting to `Disconnected`,
publishing leaves the connection state alone. -/
def samplePeerManager : PeerManagerModel where
  Connect := fun _ => .Connected
  Disconnect := fun _ => .Disconnected
  PublishTransaction := fun c => c

/-- A sample session: auto-reconnect enabled, no reconnect outstanding, connected, no peers
known, no timer, two peers in the store. -/
def sampleState : SpvService.State where
  reconnectEnableStatus := true
  reconnectTaskCount := 0
  connectStatus := .Connected
  peers := []
  _reconnectTimer := none
  peerStore := [⟨1, 20866, 100⟩, ⟨2, 20866, 200⟩]
  trace := []

/-- A sample ordinary transaction. -/
def sampleTx : Transaction where
  isCoinBase := false
  hash := "t9"
  inputs := [⟨"c0"⟩]
  outputs := []
  blockHeight := 0
  timestamp := 0

/-- A sample block: its height and the bytes it was read from. -/
structure SampleBlock where
  height : Nat
  body : List Byte
  deriving DecidableEq, Repr

/-- A sample block decoder: it fails on an empty row and otherwise keeps the bytes. -/
def sampleBlockDeserialize (block : SampleBlock) (bytes : List Byte) : Bool × SampleBlock :=
  if bytes = [] then (false, block) else (true, { block with body := bytes })

namespace SpvService

/-- A sample decoder of stored rows that fails on the empty row, leaving an empty ordinary
transaction, and otherwise decodes as `sampleDeserialize`. -/
def failingDeserialize (buff : List Byte) : Bool × Transaction :=
  if buff = [] then
    (false, { isCoinBase := false, hash := "", inputs := [], outputs := [], blockHeight := 0,
              timestamp := 0 })
  else sampleDeserialize buff

/-- A sample decoder of stored rows with large transactions: the row `[1]` is a coinbase
transaction with 65537 outputs of which only the last, at index 65536, pays the owned address
`"A"`; the row `[2]` is an ordinary transaction with 65536 inputs; every other row is a
coinbase transaction with a single output paying `"A"`. -/
def wideDeserialize (buff : List Byte) : Bool × Transaction :=
  if buff = [1] then
    (true, { isCoinBase := true, hash := "c0", inputs := [],
             outputs := List.replicate 65536 ⟨"B", 1, 0, 0, 8⟩ ++ [⟨"A", 50, 0, 0, 9⟩],
             blockHeight := 0, timestamp := 0 })
  else if buff = [2] then
    (true, { isCoinBase := false, hash := "t1", inputs := List.replicate 65536 ⟨"c0"⟩,
             outputs := [], blockHeight := 0, timestamp := 0 })
  else
    (true, { isCoinBase := true, hash := "c2", inputs := [],
             outputs := [⟨"A", 50, 0, 0, 9⟩], blockHeight := 0, timestamp := 0 })

end SpvService

/-! ## BRUtilMath: comparisons of 256-bit integers -/

/-- The four 64-bit limbs `u64[0..3]` of a `UInt256` (BRInt.h is not among the sources; the
header demands a little-endian machine, so `u64[0]` is the least significant limb). -/
structure UInt256 where
  u64_0 : Nat
  u64_1 : Nat
  u64_2 : Nat
  u64_3 : Nat
  deriving DecidableEq, Repr

namespace UInt256

/-- Every limb fits `uint64_t`. -/
def inRange (x : UInt256) : Prop :=
  x.u64_0 < 2 ^ 64 ∧ x.u64_1 < 2 ^ 64 ∧ x.u64_2 < 2 ^ 64 ∧ x.u64_3 < 2 ^ 64

instance (x : UInt256) : Decidable x.inRange := by
  unfold inRange; infer_instance

/-- The number a `UInt256` stands for: the sum of `u64[i] * 2^(64*i)`. -/
def value (x : UInt256) : Nat :=
  x.u64_0 + x.u64_1 * 2 ^ 64 + x.u64_2 * 2 ^ 128 + x.u64_3 * 2 ^ 192

end UInt256

/-- Modelled from the spec: `UInt256Eq` of BRInt.h, which is not among the sources; equality of
all four limbs. The `int` result of a C comparison or logical operator is the Boolean that is
true for 1. -/
def UInt256Eq (a b : UInt256) : Bool :=
  a.u64_0 == b.u64_0 && a.u64_1 == b.u64_1 && a.u64_2 == b.u64_2 && a.u64_3 == b.u64_3

/-- Embeds `eqUInt256`. -/
def eqUInt256 (x y : UInt256) : Bool :=
  UInt256Eq x y

/-- Embeds `gtUInt256`. -/
def gtUInt256 (x y : UInt256) : Bool :=
  decide (x.u64_3 > y.u64_3)
  || (x.u64_3 == y.u64_3
      && (decide (x.u64_2 > y.u64_2)
          || (x.u64_2 == y.u64_2
              && (decide (x.u64_1 > y.u64_1)
                  || (x.u64_1 == y.u64_1
                      && decide (x.u64_0 > y.u64_0))))))

/-- Embeds `geUInt256`. -/
def geUInt256 (x y : UInt256) : Bool :=
  eqUInt256 x y || gtUInt256 x y

/-- Embeds `ltUInt256`. -/
def ltUInt256 (x y : UInt256) : Bool :=
  decide (x.u64_3 < y.u64_3)
  || (x.u64_3 == y.u64_3
      && (decide (x.u64_2 < y.u64_2)
          || (x.u64_2 == y.u64_2
              && (decide (x.u64_1 < y.u64_1)
                  || (x.u64_1 == y.u64_1
                      && decide (x.u64_0 < y.u64_0))))))

/-- Embeds `leUInt256`. -/
def leUInt256 (x y : UInt256) : Bool :=
  eqUInt256 x y || ltUInt256 x y

/-! ## SpvService: listener fan-out and saving blocks -/

/-- What a wallet or block event handler of the session does, in order: a call on the database
manager, or a call on one registered listener (a listener is the pointer registered, a
number). `Block` is the type of the merkle blocks handed over. -/
inductive Effect (Block : Type) where
  | DeleteTxByHash (hash : String)
  | DeleteCoinBase (hash : String)
  | DeleteAllBlocks
  | PutMerkleBlocks (entities : List MerkleBlockEntity)
  | listenerOnTxDeleted (listener : Nat) (hash : Nat) (notifyUser recommendRescan : Bool)
  | listenerOnCoinBaseTxDeleted (listener : Nat) (hash : Nat) (notifyUser recommendRescan : Bool)
  | listenerSaveBlocks (listener : Nat) (replace : Bool) (blocks : List Block)

namespace SpvService

/-- Embeds `SpvService::RegisterWalletListener`: `_walletListeners.push_back(listener)`. -/
def RegisterWalletListener (_walletListeners : List Nat) (listener : Nat) : List Nat :=
  _walletListeners ++ [listener]

/-- Embeds `SpvService::RegisterPeerManagerListener`. -/
def RegisterPeerManagerListener (_peerManagerListeners : List Nat) (listener : Nat) : List Nat :=
  _peerManagerListeners ++ [listener]

/-- Embeds `SpvService::onTxDeleted`; `GetHex` is `uint256::GetHex`. -/
def onTxDeleted (GetHex : Nat → String) (_walletListeners : List Nat) (hash : Nat)
    (notifyUser recommendRescan : Bool) : List (Effect Unit) :=
  [Effect.DeleteTxByHash (GetHex hash)] ++
    _walletListeners.map
      (fun listener => Effect.listenerOnTxDeleted listener hash notifyUser recommendRescan)

/-- Embeds `SpvService::onCoinBaseTxDeleted`; `GetHex` is `uint256::GetHex`. -/
def onCoinBaseTxDeleted (GetHex : Nat → String) (_walletListeners : List Nat) (hash : Nat)
    (notifyUser recommendRescan : Bool) : List (Effect Unit) :=
  [Effect.DeleteCoinBase (GetHex hash)] ++
    _walletListeners.map
      (fun listener =>
        Effect.listenerOnCoinBaseTxDeleted listener hash notifyUser recommendRescan)

/-- The loop of `saveBlocks` (lines 232-252) that fills `merkleBlockList`; `GetHeight` and
`Serialize` (the bytes written to the reset stream) are those of `MerkleBlock`. -/
def merkleBlockList {Block : Type} (GetHeight : Block → Nat) (Serialize : Block → List Byte) :
    List Block → List MerkleBlockEntity
  | [] => []
  | b :: bs =>
    if GetHeight b = 0 then merkleBlockList GetHeight Serialize bs
    else { blockBytes := Serialize b, blockHeight := GetHeight b } ::
      merkleBlockList GetHeight Serialize bs

/-- Embeds `SpvService::saveBlocks`. -/
def saveBlocks {Block : Type} (GetHeight : Block → Nat) (Serialize : Block → List Byte)
    (_peerManagerListeners : List Nat) (replace : Bool) (blocks : List Block) :
    List (Effect Block) :=
  (if replace then [Effect.DeleteAllBlocks] else []) ++
    [Effect.PutMerkleBlocks (merkleBlockList GetHeight Serialize blocks)] ++
    _peerManagerListeners.map (fun listener => Effect.listenerSaveBlocks listener replace blocks)

end SpvService

/-! ## TransactionOutput: the copy constructor -/

/-- Modelled from the spec: the generic assignment `*a = *b` between two output payloads (the
payload classes are declared outside the sources). "Assigning/copying between incompatible
payload variants" is "recoverable, logged, and treated as a no-op assignment"; between payloads
of one variant the members are copied, the "variants" being "copy-constructible as independent
values". -/
def OutputPayload.assign {P : Params} : OutputPayload P → OutputPayload P → OutputPayload P
  | .Default _, .Default d => .Default d
  | .Vote _, .Vote d => .Vote d
  | self, _ => self

/-- The payload objects in memory, by address. An `OutputPayloadPtr` is an address or null;
`new` stores the object it constructs at the first address not in use, which is the length of
the list. -/
abbrev PayloadHeap (P : Params) := List (OutputPayload P)

/-- The members of `TransactionOutput` with `_payload` held as the pointer it is: the address
of the payload object, absent when null. -/
structure TransactionOutputObject where
  _assetId : Nat
  _amount : Nat
  _outputLock : Nat
  _programHash : Nat
  _outputType : Byte
  _payload : Option Nat
  deriving DecidableEq, Repr

namespace TransactionOutputObject

variable {P : Params}

/-- The output an object stands for in a heap: its members, with the payload object read at
the address `_payload` holds. -/
def value (heap : PayloadHeap P) (x : TransactionOutputObject) : TransactionOutput P :=
  { _assetId := x._assetId, _amount := x._amount, _outputLock := x._outputLock,
    _programHash := x._programHash, _outputType := x._outputType,
    _payload := x._payload.bind (fun a => heap[a]?) }

/-- Embeds `TransactionOutput::GeneratePayload` with the allocation of `new PayloadDefault()`
and `new PayloadVote()`: the heap after the call and the pointer returned. -/
def GeneratePayload (P : Params) (heap : PayloadHeap P) (type : Byte) :
    PayloadHeap P × Option Nat :=
  if type = P.Default then (heap ++ [.Default P.PayloadDefault.init], some heap.length)
  else if type = P.VoteOutput then (heap ++ [.Vote P.PayloadVote.init], some heap.length)
  else (heap, none)

end TransactionOutputObject

/-- The variable-width writers and readers of `ByteStream`, which is not among the sources.
The spec says of them only that "lengths and counts use a variable-width unsigned encoding; byte
blobs are length-prefixed", so they are parameters: the bytes `writeVarUint` and
`writeVarString` append, and the result of `readVarUint` and `readVarString` (absent on
failure). -/
structure VarCodec where
  writeVarUint : Nat → List Byte
  readVarUint : ByteStream → Option (Nat × ByteStream)
  writeVarString : String → List Byte
  readVarString : ByteStream → Option (String × ByteStream)

/-- The bytes of a list of 256-bit hashes written one after the other. -/
def hashesBytes : List Nat → List Byte
  | [] => []
  | h :: hs => toLE sizeofUInt256 h ++ hashesBytes hs

namespace PayloadWithDrawAsset

/-- Embeds `PayloadWithDrawAsset::Serialize`. -/
def Serialize (C : VarCodec) (self : PayloadWithDrawAsset) (ostream : ByteStream)
    (_version : Nat) : ByteStream :=
  let ostream := ostream.writeUint32 self._blockHeight
  let ostream := ostream ++ C.writeVarString self._genesisBlockAddress
  let ostream := ostream ++ C.writeVarUint (self._sideChainTransactionHash.length % 2 ^ 64)
  self._sideChainTransactionHash.foldl (fun o h => o.writeBytes sizeofUInt256 h) ostream

/-- The call `_sideChainTransactionHash.resize(len)`: the vector cut or padded with zero
hashes to `len` elements. -/
def resize (hashes : List Nat) (len : Nat) : List Nat :=
  hashes.take len ++ List.replicate (len - hashes.length) 0

/-- The loop `for (uint64_t i = 0; i < len; ++i)` of `Deserialize` (lines 86-91) with
`remaining = len - i` iterations to go: result flag, vector afterwards, stream afterwards. -/
def readHashes : ByteStream → List Nat → Nat → Nat → Bool × List Nat × ByteStream
  | istream, hashes, 0, _ => (true, hashes, istream)
  | istream, hashes, remaining + 1, i =>
    match istream.readBytes sizeofUInt256 with
    | none => (false, hashes, istream)
    | some (h, istream) => readHashes istream (hashes.set i h) remaining (i + 1)

/-- Embeds `PayloadWithDrawAsset::Deserialize`: result flag, object afterwards, stream
afterwards. -/
def Deserialize (C : VarCodec) (self : PayloadWithDrawAsset) (istream : ByteStream)
    (_version : Nat) : Bool × PayloadWithDrawAsset × ByteStream :=
  match istream.readUint32 with
  | none => (false, self, istream)
  | some (blockHeight, istream) =>
    let self := { self with _blockHeight := blockHeight }
    match C.readVarString istream with
    | none => (false, self, istream)
    | some (genesisBlockAddress, istream) =>
      let self := { self with _genesisBlockAddress := genesisBlockAddress }
      match C.readVarUint istream with
      | none => (false, self, istream)
      | some (len, istream) =>
        let self := { self with
          _sideChainTransactionHash := resize self._sideChainTransactionHash len }
        let r := readHashes istream self._sideChainTransactionHash len 0
        (r.1, { self with _sideChainTransactionHash := r.2.1 }, r.2.2)

end PayloadWithDrawAsset

/-- A sample of the variable-width codec: a count is one byte, a string is its length in one
byte followed by one byte per character. -/
def sampleVarCodec : VarCodec where
  writeVarUint := fun n => toLE 1 n
  readVarUint := fun s => ByteStream.readBytes s 1
  writeVarString := fun str => toLE 1 str.length ++ str.data.map (fun c => Fin.ofNat c.toNat)
  readVarString := fun s =>
    match ByteStream.readBytes s 1 with
    | none => none
    | some (n, rest) =>
      if n ≤ rest.length then
        some (String.mk ((rest.take n).map (fun b => Char.ofNat b.val)), rest.drop n)
      else none

/-- A sample withdraw payload. -/
def sampleWithDraw : PayloadWithDrawAsset :=
  { _blockHeight := 7, _genesisBlockAddress := "XQ", _sideChainTransactionHash := [3, 4] }

/-! ## SpvService: construction and ResetReconnect -/

namespace SpvService

/-- The session as `SpvService::SpvService` leaves it: `_reconnectTimer(nullptr)`, no call made
yet; the state of the peer manager and the peer store that `init` (declared outside the
sources) sets up are arguments. -/
def construct (reconnectEnableStatus : Bool) (reconnectTaskCount : Nat)
    (connectStatus : ConnectStatus) (peers : List PeerInfo) (peerStore : List PeerEntity) :
    State :=
  { reconnectEnableStatus := reconnectEnableStatus, reconnectTaskCount := reconnectTaskCount,
    connectStatus := connectStatus, peers := peers, _reconnectTimer := none,
    peerStore := peerStore, trace := [] }

/-- Embeds `SpvService::ResetReconnect`; `_reconnectSeconds` is the member holding the
configured interval. `expires_at` with a new time abandons a pending wait, `async_wait`
registers the wait with handler `PeerManager::AsyncConnect`. -/
def ResetReconnect (_reconnectSeconds : Nat) (s : State) : Except Fault State :=
  match s._reconnectTimer with
  | none => .error .nullDeref
  | some t =>
    let s : State :=
      { s with _reconnectTimer := some { expires := t.expires + _reconnectSeconds,
                                         waiting := false },
               trace := s.trace ++ [Call.timerExpiresAt (t.expires + _reconnectSeconds)] }
    .ok { s with _reconnectTimer := s._reconnectTimer.map (fun t => { t with waiting := true }),
                 trace := s.trace ++ [Call.timerAsyncWait] }

end SpvService

/-! ## Little-endian bytes and stream reads -/

theorem toLE_length (k n : Nat) : (toLE k n).length = k := by
  induction k generalizing n with
  | zero => rfl
  | succ k ih => simp [toLE, ih]

theorem fromLE_toLE (k n : Nat) : fromLE (toLE k n) = n % 256 ^ k := by
  induction k generalizing n with
  | zero => simp [toLE, fromLE, Nat.mod_one]
  | succ k ih => simp [toLE, fromLE, ih, pow_succ', Nat.mod_mul]

theorem fromLE_lt (bs : List Byte) : fromLE bs < 256 ^ bs.length := by
  induction bs with
  | nil => simp [fromLE]
  | cons b bs ih =>
    have hb := b.isLt
    simp only [fromLE, List.length_cons, pow_succ]
    omega

theorem readBytes_toLE_append (k n : Nat) (t : ByteStream) :
    ByteStream.readBytes (toLE k n ++ t) k = some (n % 256 ^ k, t) := by
  have hlen := toLE_length k n
  simp [ByteStream.readBytes, hlen, List.take_append_of_le_length, List.take_of_length_le,
    List.drop_append_of_le_length, List.drop_of_length_le, fromLE_toLE]

theorem readBytes_short (s : ByteStream) (k : Nat) (h : s.length < k) :
    ByteStream.readBytes s k = none := by
  simp [ByteStream.readBytes]; omega

theorem readBytes_some (s : ByteStream) (k : Nat) (h : k ≤ s.length) :
    ByteStream.readBytes s k = some (fromLE (s.take k), s.drop k) := by
  simp [ByteStream.readBytes, h]

/-! ## TransactionOutput: binary form -/

namespace TransactionOutput

variable {P : Params}

theorem Serialize_eq (x : TransactionOutput P) (o : ByteStream) :
    x.Serialize o = o ++ (toLE 32 x._assetId ++ (toLE 8 x._amount ++
      (toLE 4 x._outputLock ++ toLE 21 x._programHash))) := by
  simp [Serialize, ByteStream.writeBytes, ByteStream.writeUint64, ByteStream.writeUint32]

theorem Serialize_length (x : TransactionOutput P) : (x.Serialize []).length = 65 := by
  simp [Serialize_eq, toLE_length]

theorem Deserialize_Serialize (x y : TransactionOutput P) (t : ByteStream) :
    y.Deserialize (x.Serialize [] ++ t) =
      (true, { y with _assetId := x._assetId % 256 ^ 32, _amount := x._amount % 256 ^ 8,
                      _outputLock := x._outputLock % 256 ^ 4,
                      _programHash := x._programHash % 256 ^ 21 }, t) := by
  simp only [Serialize_eq, List.nil_append, List.append_assoc, Deserialize,
    ByteStream.readUint64, ByteStream.readUint32, readBytes_toLE_append]

theorem Deserialize_Serialize_inRange (x y : TransactionOutput P) (t : ByteStream)
    (hr : x.inRange) :
    y.Deserialize (x.Serialize [] ++ t) =
      (true, { y with _assetId := x._assetId, _amount := x._amount,
                      _outputLock := x._outputLock, _programHash := x._programHash }, t) := by
  obtain ⟨h1, h2, h3, h4⟩ := hr
  rw [Deserialize_Serialize]
  have e1 : x._assetId % 256 ^ 32 = x._assetId := Nat.mod_eq_of_lt (by norm_num at h1 ⊢; omega)
  have e2 : x._amount % 256 ^ 8 = x._amount := Nat.mod_eq_of_lt (by norm_num at h2 ⊢; omega)
  have e3 : x._outputLock % 256 ^ 4 = x._outputLock :=
    Nat.mod_eq_of_lt (by norm_num at h3 ⊢; omega)
  have e4 : x._programHash % 256 ^ 21 = x._programHash :=
    Nat.mod_eq_of_lt (by norm_num at h4 ⊢; omega)
  rw [e1, e2, e3, e4]

theorem ofNat_byte (b : Byte) : (Fin.ofNat (b.val % 256 ^ 1) : Byte) = b := by
  apply Fin.ext
  have hb := b.isLt
  simp only [Fin.ofNat, pow_one]
  omega

theorem GeneratePayload_Default (P : Params) :
    GeneratePayload P P.Default = some (.Default P.PayloadDefault.init) := by
  simp [GeneratePayload]

theorem GeneratePayload_VoteOutput (P : Params) :
    GeneratePayload P P.VoteOutput = some (.Vote P.PayloadVote.init) := by
  have h : P.VoteOutput ≠ P.Default := fun e => P.distinct e.symm
  simp [GeneratePayload, h]

theorem GeneratePayload_unknown (P : Params) (type : Byte) (h1 : type ≠ P.Default)
    (h2 : type ≠ P.VoteOutput) : GeneratePayload P type = none := by
  simp [GeneratePayload, h1, h2]

/-- C1 (amended): for in-range members and a payload of the class selected by the output type,
whose class decodes what it encodes, `Deserialize(stream, v)` on a default-constructed output
fed with what `Serialize(stream, v)` wrote (followed by any bytes `t`) returns true and stops
at `t`; for `v >= V09` the output read equals `x` in every member, for `v < V09` it equals `x`
in asset id, amount, output lock and program hash while its type and payload are those of the
default-constructed output. -/
theorem C1_binary_roundtrip (P : Params) (v : Nat) (x : TransactionOutput P) (t : ByteStream)
    (hr : x.inRange) (hm : x.payloadMatchesType = true)
    (hD : ∀ d, x._payload = some (.Default d) →
      P.PayloadDefault.Deserialize P.PayloadDefault.init (P.PayloadDefault.Serialize d ++ t)
        = (true, d, t))
    (hV : ∀ d, x._payload = some (.Vote d) →
      P.PayloadVote.Deserialize P.PayloadVote.init (P.PayloadVote.Serialize d ++ t)
        = (true, d, t)) :
    ∃ s, x.SerializeV [] v = .ok s ∧
      (new P).DeserializeV (s ++ t) v = .ok (true,
        (if P.V09 ≤ v then x
         else { x with _outputType := P.Default,
                       _payload := some (.Default P.PayloadDefault.init) }), t) := by
  obtain ⟨a, b, c, d, ty, pl⟩ := x
  by_cases hv : P.V09 ≤ v
  · cases pl with
    | none => simp [payloadMatchesType] at hm
    | some p =>
      cases p with
      | Default pd =>
        have hty : ty = P.Default := by simpa [payloadMatchesType] using hm
        subst hty
        refine ⟨(TransactionOutput.Serialize ⟨a, b, c, d, P.Default, some (.Default pd)⟩ [])
          ++ (toLE 1 P.Default.val ++ P.PayloadDefault.Serialize pd), ?_, ?_⟩
        · simp [SerializeV, hv, ByteStream.writeUint8, OutputPayload.Serialize]
        · have h := hD pd rfl
          simp only [DeserializeV, List.append_assoc, Deserialize_Serialize_inRange _ _ _ hr,
            hv, ge_iff_le, if_true, ByteStream.readUint8, readBytes_toLE_append, ofNat_byte,
            GeneratePayload_Default, OutputPayload.Deserialize, h, new]
      | Vote pd =>
        have hty : ty = P.VoteOutput := by simpa [payloadMatchesType] using hm
        subst hty
        refine ⟨(TransactionOutput.Serialize ⟨a, b, c, d, P.VoteOutput, some (.Vote pd)⟩ [])
          ++ (toLE 1 P.VoteOutput.val ++ P.PayloadVote.Serialize pd), ?_, ?_⟩
        · simp [SerializeV, hv, ByteStream.writeUint8, OutputPayload.Serialize]
        · have h := hV pd rfl
          simp only [DeserializeV, List.append_assoc, Deserialize_Serialize_inRange _ _ _ hr,
            hv, ge_iff_le, if_true, ByteStream.readUint8, readBytes_toLE_append, ofNat_byte,
            GeneratePayload_VoteOutput, OutputPayload.Deserialize, h, new]
  · refine ⟨TransactionOutput.Serialize ⟨a, b, c, d, ty, pl⟩ [], ?_, ?_⟩
    · simp [SerializeV, hv]
    · simp only [DeserializeV, Deserialize_Serialize_inRange _ _ _ hr, hv, ge_iff_le, if_false,
        new, GeneratePayload_Default]

/-- Witness of `C1_binary_roundtrip`: the sample vote output at version 9. -/
theorem C1_binary_roundtrip_witness :
    voteSample.inRange ∧ voteSample.payloadMatchesType = true ∧
    ∃ s, voteSample.SerializeV [] 9 = .ok s ∧
      (new sampleParams).DeserializeV (s ++ []) 9 = .ok (true,
        (if sampleParams.V09 ≤ 9 then voteSample
         else { voteSample with _outputType := sampleParams.Default,
                                _payload := some (.Default sampleParams.PayloadDefault.init) }),
        []) :=
  ⟨by decide, rfl,
    C1_binary_roundtrip sampleParams 9 voteSample [] (by decide) rfl
      (fun _ _ => rfl) (fun _ _ => rfl)⟩

/-- C1 (counterexample): at version 0, below `V09 = 9`, the sample vote output (type
`VoteOutput`, a `PayloadVote`) is written as its 65 core bytes, and reading them back into a
default-constructed output returns true with output type `Default`, not `VoteOutput`. -/
theorem C1_counterexample :
    voteSample.inRange ∧ voteSample.payloadMatchesType = true ∧
    voteSample._outputType = sampleParams.VoteOutput ∧
    ∃ (s : ByteStream) (y : TransactionOutput sampleParams),
      voteSample.SerializeV [] 0 = .ok s ∧
      (new sampleParams).DeserializeV s 0 = .ok (true, y, []) ∧
      y._outputType = sampleParams.Default ∧ y._outputType ≠ voteSample._outputType :=
  ⟨by decide, rfl, rfl, _, _, rfl, rfl, rfl, by decide⟩

theorem Deserialize_keeps (x : TransactionOutput P) (s : ByteStream) :
    (x.Deserialize s).2.1._outputType = x._outputType ∧
    (x.Deserialize s).2.1._payload = x._payload := by
  unfold Deserialize
  split
  · exact ⟨rfl, rfl⟩
  · split
    · exact ⟨rfl, rfl⟩
    · split
      · exact ⟨rfl, rfl⟩
      · split <;> exact ⟨rfl, rfl⟩

/-- C3 (amended): for `v < V09`, `Deserialize(stream, v)` returns on every stream and leaves
the output type and the payload of the receiving object as they were before the call; on a
default-constructed receiver the type afterwards is therefore `Default`. -/
theorem C3_old_version_keeps_type (P : Params) (v : Nat) (x : TransactionOutput P)
    (s : ByteStream) (hv : v < P.V09) :
    (∃ b y rest, x.DeserializeV s v = .ok (b, y, rest) ∧
      y._outputType = x._outputType ∧ y._payload = x._payload) ∧
    (∃ b y rest, (new P).DeserializeV s v = .ok (b, y, rest) ∧ y._outputType = P.Default) := by
  have key : ∀ x : TransactionOutput P, ∃ b y rest, x.DeserializeV s v = .ok (b, y, rest) ∧
      y._outputType = x._outputType ∧ y._payload = x._payload := by
    intro x
    have hk := Deserialize_keeps x s
    have hnv : ¬ P.V09 ≤ v := by omega
    unfold DeserializeV
    rcases hd : x.Deserialize s with ⟨b, y, rest⟩
    rw [hd] at hk
    cases b
    · exact ⟨false, y, rest, rfl, hk.1, hk.2⟩
    · refine ⟨true, y, rest, ?_, hk.1, hk.2⟩
      simp [hnv]
  refine ⟨key x, ?_⟩
  obtain ⟨b, y, rest, h1, h2, _⟩ := key (new P)
  exact ⟨b, y, rest, h1, h2⟩

/-- Witness of `C3_old_version_keeps_type`: the sample vote output as receiver, version 0. -/
theorem C3_old_version_keeps_type_witness :
    0 < sampleParams.V09 ∧
    (∃ b y rest, voteSample.DeserializeV (List.replicate 65 0) 0 = .ok (b, y, rest) ∧
      y._outputType = voteSample._outputType ∧ y._payload = voteSample._payload) ∧
    (∃ b y rest, (new sampleParams).DeserializeV (List.replicate 65 0) 0 = .ok (b, y, rest) ∧
      y._outputType = sampleParams.Default) :=
  ⟨by decide, C3_old_version_keeps_type sampleParams 0 voteSample (List.replicate 65 0)
    (by decide)⟩

/-- C3 (counterexample): at version 0, below `V09 = 9`, `Deserialize` on 65 zero bytes into a
receiver whose type is `VoteOutput` returns true and the type afterwards is still `VoteOutput`,
not `Default`. -/
theorem C3_counterexample :
    (0 : Nat) < sampleParams.V09 ∧
    ∃ y : TransactionOutput sampleParams,
      voteSample.DeserializeV (List.replicate 65 0) 0 = .ok (true, y, []) ∧
      y._outputType = sampleParams.VoteOutput ∧ y._outputType ≠ sampleParams.Default :=
  ⟨by decide, _, rfl, rfl, by decide⟩

/-- C5 (evaluation at the failing input): at version 9 (`V09 = 9`), on 65 zero bytes followed
by the output-type byte 2, which is neither `Default = 0` nor `VoteOutput = 1`,
`Deserialize(stream, v)` does not return false: it dereferences the null payload that
`GeneratePayload` returned. -/
theorem C5_unknown_type_null_deref :
    TransactionOutput.GeneratePayload sampleParams 2 = none ∧
    (new sampleParams).DeserializeV (List.replicate 65 0 ++ [2]) 9 = .error .nullDeref :=
  ⟨rfl, rfl⟩

theorem Deserialize_of_le (x : TransactionOutput P) (s : ByteStream) (h : 65 ≤ s.length) :
    ∃ y, x.Deserialize s = (true, y, s.drop 65) ∧ y._outputType = x._outputType ∧
      y._payload = x._payload := by
  have h1 := readBytes_some s 32 (by omega)
  have h2 := readBytes_some (s.drop 32) 8 (by simp only [List.length_drop]; omega)
  have h3 := readBytes_some ((s.drop 32).drop 8) 4 (by simp only [List.length_drop]; omega)
  have h4 := readBytes_some (((s.drop 32).drop 8).drop 4) 21
    (by simp only [List.length_drop]; omega)
  refine ⟨{ x with _assetId := fromLE (s.take 32), _amount := fromLE ((s.drop 32).take 8),
                    _outputLock := fromLE (((s.drop 32).drop 8).take 4),
                    _programHash := fromLE ((((s.drop 32).drop 8).drop 4).take 21) },
    ?_, rfl, rfl⟩
  simp only [Deserialize, ByteStream.readUint64, ByteStream.readUint32, h1, h2, h3, h4]
  simp only [List.drop_drop]

theorem Deserialize_of_lt (x : TransactionOutput P) (s : ByteStream) (h : s.length < 65) :
    ∃ y r, x.Deserialize s = (false, y, r) := by
  unfold Deserialize
  by_cases c1 : 32 ≤ s.length
  · rw [readBytes_some s 32 c1]
    by_cases c2 : 40 ≤ s.length
    · simp only [ByteStream.readUint64]
      rw [readBytes_some (s.drop 32) 8 (by simp only [List.length_drop]; omega)]
      by_cases c3 : 44 ≤ s.length
      · simp only [ByteStream.readUint32]
        rw [readBytes_some ((s.drop 32).drop 8) 4 (by simp only [List.length_drop]; omega)]
        simp only
        rw [readBytes_short (((s.drop 32).drop 8).drop 4) 21
          (by simp only [List.length_drop]; omega)]
        exact ⟨_, _, rfl⟩
      · simp only [ByteStream.readUint32]
        rw [readBytes_short ((s.drop 32).drop 8) 4 (by simp only [List.length_drop]; omega)]
        exact ⟨_, _, rfl⟩
    · simp only [ByteStream.readUint64]
      rw [readBytes_short (s.drop 32) 8 (by simp only [List.length_drop]; omega)]
      exact ⟨_, _, rfl⟩
  · rw [readBytes_short s 32 (by omega)]
    exact ⟨_, _, rfl⟩

theorem ofNat_fromLE_singleton (tag : Byte) : (Fin.ofNat (fromLE [tag]) : Byte) = tag := by
  apply Fin.ext
  have := tag.isLt
  simp only [fromLE, Fin.ofNat]
  omega

theorem drop_core (c rest : ByteStream) (tag : Byte) (hc : c.length = 65) :
    List.drop 65 (c ++ tag :: rest) = tag :: rest := by
  rw [← hc]
  simp

theorem DeserializeV_unknown_type (P : Params) (v : Nat) (x : TransactionOutput P)
    (c rest : ByteStream) (tag : Byte) (hv : P.V09 ≤ v) (hc : c.length = 65)
    (h1 : tag ≠ P.Default) (h2 : tag ≠ P.VoteOutput) :
    x.DeserializeV (c ++ tag :: rest) v = .error .nullDeref := by
  obtain ⟨y, hy, -, -⟩ := Deserialize_of_le x (c ++ tag :: rest) (by simp [hc])
  rw [drop_core c rest tag hc] at hy
  simp [DeserializeV, hy, hv, ByteStream.readUint8, ByteStream.readBytes,
    ofNat_fromLE_singleton, GeneratePayload_unknown P tag h1 h2]

/-- C9: `Deserialize(stream, v)` returns false, without raising, when the stream has fewer
than the 65 core bytes, and, for `v >= V09`, when it ends right after them (no output-type
byte) or when the `Deserialize` of the payload generated for the output-type byte returns false
on the bytes that follow. -/
theorem C9_short_stream_returns_false (P : Params) (v : Nat) (x : TransactionOutput P)
    (s : ByteStream)
    (h : s.length < 65 ∨ (P.V09 ≤ v ∧ (s.length = 65 ∨
      ∃ (c : ByteStream) (tag : Byte) (rest : ByteStream) (p : OutputPayload P),
        c.length = 65 ∧ s = c ++ tag :: rest ∧ GeneratePayload P tag = some p ∧
        (p.Deserialize rest).1 = false))) :
    ∃ y r, x.DeserializeV s v = .ok (false, y, r) := by
  rcases h with h | ⟨hv, h | ⟨c, tag, rest, p, hc, hs, hg, hp⟩⟩
  · obtain ⟨y, r, hy⟩ := Deserialize_of_lt x s h
    exact ⟨y, r, by simp [DeserializeV, hy]⟩
  · obtain ⟨y, hy, -, -⟩ := Deserialize_of_le x s (by omega)
    have hd : List.drop 65 s = [] := List.drop_of_length_le (by omega)
    rw [hd] at hy
    exact ⟨y, [], by simp [DeserializeV, hy, hv, ByteStream.readUint8, ByteStream.readBytes]⟩
  · subst hs
    obtain ⟨y, hy, -, -⟩ := Deserialize_of_le x (c ++ tag :: rest) (by simp [hc])
    rw [drop_core c rest tag hc] at hy
    refine ⟨{ y with _outputType := tag, _payload := some (p.Deserialize rest).2.1 },
      (p.Deserialize rest).2.2, ?_⟩
    simp only [DeserializeV, hy, hv, ge_iff_le, if_true, ByteStream.readUint8,
      ByteStream.readBytes, List.length_cons, Nat.le_add_left, List.take_succ_cons,
      List.take_zero, ofNat_fromLE_singleton, List.drop_succ_cons, List.drop_zero, hg, hp,
      Bool.false_eq_true, if_false]

/-- Witness of `C9_short_stream_returns_false`: version 9, 65 zero bytes followed by the
`VoteOutput` tag and nothing else, so that the one-byte sample payload cannot be read. -/
theorem C9_short_stream_returns_false_witness :
    (sampleParams.V09 ≤ 9 ∧
      ∃ (c : ByteStream) (tag : Byte) (rest : ByteStream) (p : OutputPayload sampleParams),
        c.length = 65 ∧ List.replicate 65 0 ++ [1] = c ++ tag :: rest ∧
        GeneratePayload sampleParams tag = some p ∧ (p.Deserialize rest).1 = false) ∧
    ∃ y r, (new sampleParams).DeserializeV (List.replicate 65 0 ++ [1]) 9 = .ok (false, y, r) :=
  ⟨⟨by decide, List.replicate 65 0, 1, [], .Vote (0 : Byte), rfl, rfl, rfl, rfl⟩,
    C9_short_stream_returns_false sampleParams 9 (new sampleParams) (List.replicate 65 0 ++ [1])
      (Or.inr ⟨by decide, Or.inr ⟨List.replicate 65 0, 1, [], .Vote (0 : Byte),
        rfl, rfl, rfl, rfl⟩⟩)⟩

/-- C7: a typed constructor called with type `VoteOutput` and a null payload yields a non-null
payload that is a `PayloadVote`, and with type `Default` and a null payload a non-null
`PayloadDefault`, for every amount, asset id and address or program hash. -/
theorem C7_typed_constructor_generates_payload (P : Params) (a assetID programHash : Nat)
    (addr : String) :
    (ofAddress P a addr assetID P.VoteOutput none)._payload
      = some (.Vote P.PayloadVote.init) ∧
    (ofProgramHash P a programHash assetID P.VoteOutput none)._payload
      = some (.Vote P.PayloadVote.init) ∧
    (ofAddress P a addr assetID P.Default none)._payload
      = some (.Default P.PayloadDefault.init) ∧
    (ofProgramHash P a programHash assetID P.Default none)._payload
      = some (.Default P.PayloadDefault.init) := by
  simp [ofAddress, ofProgramHash, GeneratePayload_VoteOutput, GeneratePayload_Default]

end TransactionOutput

namespace PayloadWithDrawAsset

/-- C8: the generic assignment `p = q` through `operator=(const IPayload &)` always returns;
when `q` is not a `PayloadWithDrawAsset` it leaves `p` (block height, genesis block address,
side-chain transaction hashes) unchanged and logs the mismatch, and when `q` is a
`PayloadWithDrawAsset` it makes the three members of `p` equal to those of `q`. -/
theorem C8_generic_assignment (Other : Type) (p : PayloadWithDrawAsset) :
    (∀ o : Other, p.assignIPayload (IPayload.other o)
      = (p, ["payload is not instance of PayloadWithDrawAsset"])) ∧
    (∀ q : PayloadWithDrawAsset,
      (p.assignIPayload (IPayload.withDrawAsset q : IPayload Other)).1._blockHeight
        = q._blockHeight ∧
      (p.assignIPayload (IPayload.withDrawAsset q : IPayload Other)).1._genesisBlockAddress
        = q._genesisBlockAddress ∧
      (p.assignIPayload (IPayload.withDrawAsset q : IPayload Other)).1._sideChainTransactionHash
        = q._sideChainTransactionHash) :=
  ⟨fun _ => rfl, fun _ => ⟨rfl, rfl, rfl⟩⟩

end PayloadWithDrawAsset

/-! ## TransactionOutput: JSON form -/

namespace TransactionOutput

variable {P : Params}

theorem toJson_eq (x : TransactionOutput P) :
    x.toJson = .obj [("Amount", .num x._amount),
      ("AssetId", .str (P.UInt256ToString x._assetId true)),
      ("OutputLock", .num x._outputLock),
      ("ProgramHash", .str (P.UInt168ToString x._programHash))] := by
  simp [toJson, Json.set, Json.setKey]

theorem fromJson_toJson (x y : TransactionOutput P) (extra : List (String × Json)) :
    y.fromJson (.obj ([("Amount", .num x._amount),
      ("AssetId", .str (P.UInt256ToString x._assetId true)),
      ("OutputLock", .num x._outputLock),
      ("ProgramHash", .str (P.UInt168ToString x._programHash))] ++ extra)) =
    .ok { y with _amount := x._amount % 2 ^ 64,
                 _assetId := P.UInt256FromString (P.UInt256ToString x._assetId true) true,
                 _outputLock := x._outputLock % 2 ^ 32,
                 _programHash := P.UInt168FromString (P.UInt168ToString x._programHash) } := by
  simp [fromJson, getUint, getString, Json.get?, bind, Except.bind, pure, Except.pure]

theorem toJsonV_new (x : TransactionOutput P) (v : Nat) (hv : P.V09 ≤ v) (p : OutputPayload P)
    (hp : x._payload = some p) :
    x.toJsonV v = .ok (.obj ([("Amount", .num x._amount),
      ("AssetId", .str (P.UInt256ToString x._assetId true)),
      ("OutputLock", .num x._outputLock),
      ("ProgramHash", .str (P.UInt168ToString x._programHash))] ++
      [("OutputType", .num x._outputType.val), ("Payload", p.toJson)])) := by
  simp [toJsonV, toJson_eq, hv, hp, Json.set, Json.setKey]

theorem toJsonV_old (x : TransactionOutput P) (v : Nat) (hv : ¬ P.V09 ≤ v) :
    x.toJsonV v = .ok (.obj ([("Amount", .num x._amount),
      ("AssetId", .str (P.UInt256ToString x._assetId true)),
      ("OutputLock", .num x._outputLock),
      ("ProgramHash", .str (P.UInt168ToString x._programHash))] ++ [])) := by
  simp [toJsonV, toJson_eq, hv]

theorem ofNat_byte_mod (b : Byte) : (Fin.ofNat (b.val % 256) : Byte) = b := by
  apply Fin.ext
  have hb := b.isLt
  simp only [Fin.ofNat]
  omega

/-- C2 (amended): for in-range members, a payload of the class selected by the output type
whose class reads back the JSON it writes, and hash strings that convert back to the hashes,
`fromJson(toJson(x, v), v)` on a default-constructed output returns; for `v >= V09` the output
read equals `x` in every member, for `v < V09` it equals `x` in amount, asset id, output lock
and program hash while its type and payload are those of the default-constructed output. -/
theorem C2_json_roundtrip (P : Params) (v : Nat) (x : TransactionOutput P)
    (hr : x.inRange) (hm : x.payloadMatchesType = true)
    (h256 : P.UInt256FromString (P.UInt256ToString x._assetId true) true = x._assetId)
    (h168 : P.UInt168FromString (P.UInt168ToString x._programHash) = x._programHash)
    (hD : ∀ d, x._payload = some (.Default d) →
      P.PayloadDefault.fromJson P.PayloadDefault.init (P.PayloadDefault.toJson d) = .ok d)
    (hV : ∀ d, x._payload = some (.Vote d) →
      P.PayloadVote.fromJson P.PayloadVote.init (P.PayloadVote.toJson d) = .ok d) :
    ∃ j, x.toJsonV v = .ok j ∧
      (new P).fromJsonV j v = .ok
        (if P.V09 ≤ v then x
         else { x with _outputType := P.Default,
                       _payload := some (.Default P.PayloadDefault.init) }) := by
  obtain ⟨a, b, c, d, ty, pl⟩ := x
  obtain ⟨-, h2, h3, -⟩ := hr
  simp only at h2 h3 h256 h168
  have e2 : b < 18446744073709551616 := by simpa using h2
  have e3 : c < 4294967296 := by simpa using h3
  by_cases hv : P.V09 ≤ v
  · cases pl with
    | none => simp [payloadMatchesType] at hm
    | some p =>
      refine ⟨_, toJsonV_new _ v hv p rfl, ?_⟩
      cases p with
      | Default pd =>
        have hty : ty = P.Default := by simpa [payloadMatchesType] using hm
        subst hty
        have h := hD pd rfl
        have hf := fromJson_toJson
          (⟨a, b, c, d, P.Default, some (.Default pd)⟩ : TransactionOutput P) (new P)
          [("OutputType", .num P.Default.val), ("Payload", P.PayloadDefault.toJson pd)]
        simp only [List.cons_append, List.nil_append] at hf
        simp only [fromJsonV, List.cons_append, List.nil_append, OutputPayload.toJson, hf, bind,
          Except.bind]
        simp [ bind, Except.bind, pure, Except.pure, hv, getUint,
          Json.get?, ofNat_byte_mod, GeneratePayload_Default, OutputPayload.fromJson,
          OutputPayload.toJson, h, Except.map, e2, e3, h256, h168, new]
      | Vote pd =>
        have hty : ty = P.VoteOutput := by simpa [payloadMatchesType] using hm
        subst hty
        have h := hV pd rfl
        have hf := fromJson_toJson
          (⟨a, b, c, d, P.VoteOutput, some (.Vote pd)⟩ : TransactionOutput P) (new P)
          [("OutputType", .num P.VoteOutput.val), ("Payload", P.PayloadVote.toJson pd)]
        simp only [List.cons_append, List.nil_append] at hf
        simp only [fromJsonV, List.cons_append, List.nil_append, OutputPayload.toJson, hf, bind,
          Except.bind]
        simp [ bind, Except.bind, pure, Except.pure, hv, getUint,
          Json.get?, ofNat_byte_mod, GeneratePayload_VoteOutput, OutputPayload.fromJson,
          OutputPayload.toJson, h, Except.map, e2, e3, h256, h168, new]
  · refine ⟨_, toJsonV_old _ v hv, ?_⟩
    have hf := fromJson_toJson (⟨a, b, c, d, ty, pl⟩ : TransactionOutput P) (new P) []
    simp only [List.append_nil] at hf
    simp only [fromJsonV, List.append_nil, hf, bind, Except.bind]
    simp [ bind, Except.bind, pure, Except.pure, hv, e2, e3, h256,
      h168, new, GeneratePayload_Default]

/-- Witness of `C2_json_roundtrip`: the sample vote output at version 9. -/
theorem C2_json_roundtrip_witness :
    (voteSample.inRange ∧ voteSample.payloadMatchesType = true ∧
      sampleParams.UInt256FromString (sampleParams.UInt256ToString voteSample._assetId true) true
        = voteSample._assetId ∧
      sampleParams.UInt168FromString (sampleParams.UInt168ToString voteSample._programHash)
        = voteSample._programHash) ∧
    ∃ j, voteSample.toJsonV 9 = .ok j ∧
      (new sampleParams).fromJsonV j 9 = .ok
        (if sampleParams.V09 ≤ 9 then voteSample
         else { voteSample with _outputType := sampleParams.Default,
                                _payload := some (.Default sampleParams.PayloadDefault.init) }) :=
  ⟨⟨by decide, rfl, by decide, by decide⟩,
    C2_json_roundtrip sampleParams 9 voteSample (by decide) rfl (by decide) (by decide)
      (fun _ _ => rfl)
      (fun d _ => by
        simp [sampleParams, bytePayloadClass, Json.get?]
        apply Fin.ext
        have := d.isLt
        simp only [Fin.ofNat]
        omega)⟩

/-- C2 (counterexample): at version 0, below `V09 = 9`, `toJson` of the sample vote output
(type `VoteOutput`, a `PayloadVote`) carries no output type and no payload, and `fromJson` of
it on a default-constructed output yields output type `Default`, not `VoteOutput`. -/
theorem C2_counterexample :
    voteSample.inRange ∧ voteSample.payloadMatchesType = true ∧
    voteSample._outputType = sampleParams.VoteOutput ∧
    ∃ (j : Json) (y : TransactionOutput sampleParams),
      voteSample.toJsonV 0 = .ok j ∧
      (new sampleParams).fromJsonV j 0 = .ok y ∧
      y._outputType = sampleParams.Default ∧ y._outputType ≠ voteSample._outputType :=
  ⟨by decide, rfl, rfl, _, _, rfl, rfl, rfl, by decide⟩

end TransactionOutput

/-! ## TransactionOutput: the payload follows the output type -/

namespace TransactionOutput

variable {P : Params}

theorem payloadMatchesType_congr (x y : TransactionOutput P)
    (h1 : y._outputType = x._outputType) (h2 : y._payload = x._payload) :
    y.payloadMatchesType = x.payloadMatchesType := by
  simp [payloadMatchesType, h1, h2]

theorem payloadMatchesType_generated (P : Params) (x : TransactionOutput P)
    (p q : OutputPayload P) (hg : GeneratePayload P x._outputType = some p)
    (hq : q.isDefault = p.isDefault) (hx : x._payload = some q) :
    x.payloadMatchesType = true := by
  unfold GeneratePayload at hg
  by_cases h1 : x._outputType = P.Default
  · simp only [h1, if_true, Option.some.injEq] at hg
    subst hg
    cases q with
    | Default d => simp [payloadMatchesType, hx, h1]
    | Vote d => simp [OutputPayload.isDefault] at hq
  · by_cases h2 : x._outputType = P.VoteOutput
    · simp only [h1, h2, if_false, if_true, Option.some.injEq] at hg
      have hd : P.VoteOutput ≠ P.Default := fun e => P.distinct e.symm
      simp only [hd, if_false, Option.some.injEq] at hg
      subst hg
      cases q with
      | Default d => simp [OutputPayload.isDefault] at hq
      | Vote d => simp [payloadMatchesType, hx, h2]
    · simp [h1, h2] at hg

theorem OutputPayload_Deserialize_isDefault (p : OutputPayload P) (s : ByteStream) :
    (p.Deserialize s).2.1.isDefault = p.isDefault := by
  cases p <;> rfl

theorem OutputPayload_fromJson_isDefault (p q : OutputPayload P) (j : Json)
    (h : p.fromJson j = .ok q) : q.isDefault = p.isDefault := by
  cases p with
  | Default d =>
    simp only [OutputPayload.fromJson, Except.map] at h
    split at h
    · cases h
    · cases h; rfl
  | Vote d =>
    simp only [OutputPayload.fromJson, Except.map] at h
    split at h
    · cases h
    · cases h; rfl

theorem DeserializeV_preserves (x : TransactionOutput P) (s : ByteStream) (v : Nat) (b : Bool)
    (y : TransactionOutput P) (r : ByteStream) (hx : x.payloadMatchesType = true)
    (h : x.DeserializeV s v = .ok (b, y, r)) : y.payloadMatchesType = true := by
  have hk := Deserialize_keeps x s
  unfold DeserializeV at h
  rcases hd : x.Deserialize s with ⟨b0, y0, r0⟩
  rw [hd] at hk h
  have h0 : y0.payloadMatchesType = true := by
    rw [payloadMatchesType_congr x y0 hk.1 hk.2]; exact hx
  cases b0 with
  | false =>
    simp only [Except.ok.injEq, Prod.mk.injEq] at h
    rw [← h.2.1]; exact h0
  | true =>
    simp only at h
    split at h
    · split at h
      · simp only [Except.ok.injEq, Prod.mk.injEq] at h
        rw [← h.2.1]; exact h0
      · rename_i outputType istream hread
        split at h
        · cases h
        · rename_i p hp
          split at h <;>
          · simp only [Except.ok.injEq, Prod.mk.injEq] at h
            rw [← h.2.1]
            exact payloadMatchesType_generated P _ p _ hp
              (OutputPayload_Deserialize_isDefault p istream) rfl
    · simp only [Except.ok.injEq, Prod.mk.injEq] at h
      rw [← h.2.1]; exact h0

theorem fromJson_keeps (x y : TransactionOutput P) (j : Json) (h : x.fromJson j = .ok y) :
    y._outputType = x._outputType ∧ y._payload = x._payload := by
  simp only [fromJson, bind, Except.bind, pure, Except.pure] at h
  split at h
  · cases h
  · split at h
    · cases h
    · split at h
      · cases h
      · split at h
        · cases h
        · cases h; exact ⟨rfl, rfl⟩

theorem fromJsonV_preserves (x : TransactionOutput P) (j : Json) (v : Nat)
    (y : TransactionOutput P) (hx : x.payloadMatchesType = true)
    (h : x.fromJsonV j v = .ok y) : y.payloadMatchesType = true := by
  simp only [fromJsonV, bind, Except.bind, pure, Except.pure] at h
  split at h
  · cases h
  · rename_i y0 hy0
    have hk := fromJson_keeps x y0 j hy0
    have h0 : y0.payloadMatchesType = true := by
      rw [payloadMatchesType_congr x y0 hk.1 hk.2]; exact hx
    split at h
    · split at h
      · cases h
      · rename_i outputType hot
        split at h
        · cases h
        · rename_i p hp
          split at h
          · cases h
          · rename_i jp hjp
            split at h
            · cases h
            · rename_i q hq
              cases h
              exact payloadMatchesType_generated P _ p q hp
                (OutputPayload_fromJson_isDefault p q jp hq) rfl
    · cases h; exact h0

/-- C6 (amended): the default constructor, and the typed constructors called with type
`Default` or `VoteOutput` and a null payload, yield an output whose payload is non-null and of
the class selected by its type; `Deserialize` and `fromJson` keep that property whenever they
return; `SetType` keeps it exactly when the new type is the current one, and `SetPayload`
yields it exactly when the new payload is non-null and of the class selected by the type. -/
theorem C6_payload_matches_type (P : Params) :
    (new P).payloadMatchesType = true ∧
    (∀ (a : Nat) (addr : String) (assetID : Nat) (type : Byte),
      type = P.Default ∨ type = P.VoteOutput →
      (ofAddress P a addr assetID type none).payloadMatchesType = true) ∧
    (∀ (a programHash assetID : Nat) (type : Byte),
      type = P.Default ∨ type = P.VoteOutput →
      (ofProgramHash P a programHash assetID type none).payloadMatchesType = true) ∧
    (∀ (x : TransactionOutput P) (s : ByteStream) (v : Nat) (b : Bool)
      (y : TransactionOutput P) (r : ByteStream),
      x.payloadMatchesType = true → x.DeserializeV s v = .ok (b, y, r) →
      y.payloadMatchesType = true) ∧
    (∀ (x : TransactionOutput P) (j : Json) (v : Nat) (y : TransactionOutput P),
      x.payloadMatchesType = true → x.fromJsonV j v = .ok y → y.payloadMatchesType = true) ∧
    (∀ (x : TransactionOutput P) (type : Byte), x.payloadMatchesType = true →
      ((x.SetType type).payloadMatchesType = true ↔ type = x._outputType)) ∧
    (∀ (x : TransactionOutput P) (payload : Option (OutputPayload P)),
      (x.SetPayload payload).payloadMatchesType = true ↔
        ∃ q, payload = some q ∧ ((x._outputType = P.Default ∧ q.isDefault = true) ∨
          (x._outputType = P.VoteOutput ∧ q.isVote = true))) := by
  have hd : P.VoteOutput ≠ P.Default := fun e => P.distinct e.symm
  refine ⟨?_, ?_, ?_, ?_, ?_, ?_, ?_⟩
  · simp [new, GeneratePayload_Default, payloadMatchesType]
  · rintro a addr assetID type (h | h) <;> subst h
    · simp [ofAddress, GeneratePayload_Default, payloadMatchesType]
    · simp [ofAddress, GeneratePayload_VoteOutput, payloadMatchesType]
  · rintro a ph assetID type (h | h) <;> subst h
    · simp [ofProgramHash, GeneratePayload_Default, payloadMatchesType]
    · simp [ofProgramHash, GeneratePayload_VoteOutput, payloadMatchesType]
  · intro x s v b y r hx h
    exact DeserializeV_preserves x s v b y r hx h
  · intro x j v y hx h
    exact fromJsonV_preserves x j v y hx h
  · intro x type hx
    obtain ⟨a, b, c, d, ty, pl⟩ := x
    cases pl with
    | none => simp [payloadMatchesType] at hx
    | some p =>
      cases p with
      | Default pd =>
        have hty : ty = P.Default := by simpa [payloadMatchesType] using hx
        simp [SetType, payloadMatchesType, hty]
      | Vote pd =>
        have hty : ty = P.VoteOutput := by simpa [payloadMatchesType] using hx
        simp [SetType, payloadMatchesType, hty]
  · intro x payload
    cases payload with
    | none => simp [SetPayload, payloadMatchesType]
    | some p =>
      cases p with
      | Default pd =>
        simp [SetPayload, payloadMatchesType, OutputPayload.isDefault, OutputPayload.isVote]
      | Vote pd =>
        simp [SetPayload, payloadMatchesType, OutputPayload.isDefault, OutputPayload.isVote]

/-- Witness of `C6_payload_matches_type`: a vote output built by each typed constructor, the
sample vote output read from a stream and from JSON, and `SetType` on it. -/
theorem C6_payload_matches_type_witness :
    (ofAddress sampleParams 5 "7" 3 1 none).payloadMatchesType = true ∧
    (ofProgramHash sampleParams 5 7 3 1 none).payloadMatchesType = true ∧
    (∃ b y r, voteSample.DeserializeV (List.replicate 65 0 ++ [0]) 9 = .ok (b, y, r) ∧
      y.payloadMatchesType = true) ∧
    (∃ y, voteSample.fromJsonV defaultSample.toJson 0 = .ok y ∧ y.payloadMatchesType = true) ∧
    ((voteSample.SetType 1).payloadMatchesType = true ↔ (1 : Byte) = voteSample._outputType) :=
  ⟨(C6_payload_matches_type sampleParams).2.1 5 "7" 3 1 (Or.inr rfl),
   (C6_payload_matches_type sampleParams).2.2.1 5 7 3 1 (Or.inr rfl),
   ⟨true, ⟨0, 0, 0, 0, 0, some (.Default ())⟩, [], rfl,
    (C6_payload_matches_type sampleParams).2.2.2.1 voteSample
      (List.replicate 65 0 ++ [0]) 9 true ⟨0, 0, 0, 0, 0, some (.Default ())⟩ [] rfl (by rfl)⟩,
   ⟨voteSample, rfl, (C6_payload_matches_type sampleParams).2.2.2.2.1 voteSample
      defaultSample.toJson 0 voteSample rfl (by rfl)⟩,
   (C6_payload_matches_type sampleParams).2.2.2.2.2.1 voteSample 1 rfl⟩

/-- C6 (counterexample): a default-constructed output has a `PayloadDefault` matching its type
`Default`; after `SetType(VoteOutput)` the payload is still that `PayloadDefault` and no longer
matches the type, and after `SetPayload(nullptr)` the payload is null. -/
theorem C6_counterexample :
    (new sampleParams).payloadMatchesType = true ∧
    ((new sampleParams).SetType sampleParams.VoteOutput).payloadMatchesType = false ∧
    ((new sampleParams).SetType sampleParams.VoteOutput)._payload
      = some (.Default sampleParams.PayloadDefault.init) ∧
    ((new sampleParams).SetPayload none).payloadMatchesType = false ∧
    ((new sampleParams).SetPayload none)._payload = none :=
  ⟨rfl, rfl, rfl, rfl, rfl⟩

end TransactionOutput

/-! ## SpvService: loading the stored transactions -/

namespace SpvService

theorem scanOutputs_eq (ContainsAddress : String → Bool) (tx : Transaction)
    (hlen : tx.outputs.length < 65536) :
    ∀ (k fuel n : Nat), tx.outputs.length - n = k → n ≤ tx.outputs.length → k < fuel →
      scanOutputs ContainsAddress tx fuel n
        = some (firstOwnedFrom ContainsAddress tx (tx.outputs.drop n) n) := by
  intro k
  induction k with
  | zero =>
    intro fuel n hk hn hf
    obtain ⟨f, rfl⟩ : ∃ f, fuel = f + 1 := ⟨fuel - 1, by omega⟩
    have hnone : tx.outputs[n]? = none := List.getElem?_eq_none (by omega)
    have hdrop : tx.outputs.drop n = [] := List.drop_of_length_le (by omega)
    simp [scanOutputs, hnone, hdrop, firstOwnedFrom]
  | succ k ih =>
    intro fuel n hk hn hf
    obtain ⟨f, rfl⟩ : ∃ f, fuel = f + 1 := ⟨fuel - 1, by omega⟩
    have hlt : n < tx.outputs.length := by omega
    have hsome : tx.outputs[n]? = some tx.outputs[n] := List.getElem?_eq_getElem hlt
    have hdrop : tx.outputs.drop n = tx.outputs[n] :: tx.outputs.drop (n + 1) :=
      List.drop_eq_getElem_cons hlt
    have hmod : (n + 1) % 65536 = n + 1 := Nat.mod_eq_of_lt (by omega)
    rw [hdrop]
    simp only [scanOutputs, hsome, firstOwnedFrom, hmod]
    split
    · rfl
    · exact ih f (n + 1) (by omega) (by omega) (by omega)

theorem scanInputs_eq (tx : Transaction) (hlen : tx.inputs.length < 65536) :
    ∀ (k fuel n : Nat) (acc : List String), tx.inputs.length - n = k →
      n ≤ tx.inputs.length → k < fuel →
      scanInputs tx fuel n acc
        = some ((tx.inputs.drop n).foldl (fun a i => setInsert i.txHash a) acc) := by
  intro k
  induction k with
  | zero =>
    intro fuel n acc hk hn hf
    obtain ⟨f, rfl⟩ : ∃ f, fuel = f + 1 := ⟨fuel - 1, by omega⟩
    have hnone : tx.inputs[n]? = none := List.getElem?_eq_none (by omega)
    have hdrop : tx.inputs.drop n = [] := List.drop_of_length_le (by omega)
    simp [scanInputs, hnone, hdrop]
  | succ k ih =>
    intro fuel n acc hk hn hf
    obtain ⟨f, rfl⟩ : ∃ f, fuel = f + 1 := ⟨fuel - 1, by omega⟩
    have hlt : n < tx.inputs.length := by omega
    have hsome : tx.inputs[n]? = some tx.inputs[n] := List.getElem?_eq_getElem hlt
    have hdrop : tx.inputs.drop n = tx.inputs[n] :: tx.inputs.drop (n + 1) :=
      List.drop_eq_getElem_cons hlt
    have hmod : (n + 1) % 65536 = n + 1 := Nat.mod_eq_of_lt (by omega)
    rw [hdrop]
    simp only [scanInputs, hsome, hmod, List.foldl_cons]
    exact ih f (n + 1) _ (by omega) (by omega) (by omega)

theorem mem_setInsert (a h : String) (l : List String) :
    a ∈ setInsert h l ↔ a = h ∨ a ∈ l := by
  induction l with
  | nil => simp [setInsert]
  | cons x xs ih =>
    unfold setInsert
    split
    · simp
    · split
      · rename_i hx
        subst hx
        simp
      · simp only [List.mem_cons, ih]
        tauto

theorem mem_foldl_setInsert (a : String) (ins : List TransactionInput) (acc : List String) :
    a ∈ ins.foldl (fun a i => setInsert i.txHash a) acc ↔
      a ∈ acc ∨ ∃ i ∈ ins, i.txHash = a := by
  induction ins generalizing acc with
  | nil => simp
  | cons i is ih =>
    simp only [List.foldl_cons, ih, mem_setInsert, List.mem_cons, exists_eq_or_imp]
    constructor
    · rintro ((h | h) | h)
      · exact Or.inr (Or.inl h.symm)
      · exact Or.inl h
      · exact Or.inr (Or.inr h)
    · rintro (h | h | h)
      · exact Or.inl (Or.inr h)
      · exact Or.inl (Or.inl h.symm)
      · exact Or.inr h

theorem loadStep_spec (deserialize : List Byte → Bool × Transaction)
    (ContainsAddress : String → Bool) (fuel : Nat) (hf : 65536 ≤ fuel) (st : LoadState)
    (e : TransactionEntity)
    (hfit : (loadOne deserialize e).inputs.length < 65536 ∧
      (loadOne deserialize e).outputs.length < 65536) :
    loadStep deserialize ContainsAddress fuel st e =
      some (if (loadOne deserialize e).isCoinBase then
        { st with
          coinBaseHashes := setInsert (loadOne deserialize e).hash st.coinBaseHashes,
          coinBaseEntitys := st.coinBaseEntitys ++
            (firstOwnedFrom ContainsAddress (loadOne deserialize e)
              (loadOne deserialize e).outputs 0).toList }
      else
        { st with
          spentHashes := (loadOne deserialize e).inputs.foldl
            (fun a i => setInsert i.txHash a) st.spentHashes,
          txs := st.txs ++ [loadOne deserialize e] }) := by
  have ho := scanOutputs_eq ContainsAddress (loadOne deserialize e) hfit.2
    (loadOne deserialize e).outputs.length fuel 0 (by omega) (by omega) (by omega)
  have hi := scanInputs_eq (loadOne deserialize e) hfit.1
    (loadOne deserialize e).inputs.length fuel 0 st.spentHashes (by omega) (by omega) (by omega)
  simp only [List.drop_zero] at ho hi
  unfold loadStep
  simp only [ho, hi]
  split
  · cases hfo : firstOwnedFrom ContainsAddress (loadOne deserialize e)
      (loadOne deserialize e).outputs 0 <;> simp
  · rfl

theorem loadLoop_spec (deserialize : List Byte → Bool × Transaction)
    (ContainsAddress : String → Bool) (fuel : Nat) (hf : 65536 ≤ fuel) :
    ∀ (es : List TransactionEntity) (st : LoadState),
      countsFit (es.map (loadOne deserialize)) →
      ∃ st', loadLoop deserialize ContainsAddress fuel st es = some st' ∧
        st'.txs = st.txs ++ (es.map (loadOne deserialize)).filter (fun t => !t.isCoinBase) ∧
        st'.coinBaseEntitys = st.coinBaseEntitys ++
          coinBaseEntitysOf ContainsAddress (es.map (loadOne deserialize)) ∧
        (∀ h, h ∈ st'.spentHashes ↔
          h ∈ st.spentHashes ∨ spentBy (es.map (loadOne deserialize)) h) ∧
        (∀ h, h ∈ st'.coinBaseHashes ↔ h ∈ st.coinBaseHashes ∨
          ∃ T ∈ es.map (loadOne deserialize), T.isCoinBase = true ∧ T.hash = h) := by
  intro es
  induction es with
  | nil =>
    intro st _
    exact ⟨st, rfl, by simp, by simp [coinBaseEntitysOf], by simp [spentBy], by simp⟩
  | cons e es ih =>
    intro st hfit
    have hfe : (loadOne deserialize e).inputs.length < 65536 ∧
        (loadOne deserialize e).outputs.length < 65536 :=
      hfit (loadOne deserialize e) (by simp)
    have hfes : countsFit (es.map (loadOne deserialize)) := by
      intro tx htx
      exact hfit tx (by simp only [List.map_cons, List.mem_cons]; exact Or.inr htx)
    have hstep := loadStep_spec deserialize ContainsAddress fuel hf st e hfe
    simp only [loadLoop, hstep]
    by_cases hcb : (loadOne deserialize e).isCoinBase = true
    · simp only [hcb, if_true]
      obtain ⟨st', h1, h2, h3, h4, h5⟩ := ih _ hfes
      refine ⟨st', h1, ?_, ?_, ?_, ?_⟩
      · simp [h2, hcb]
      · rw [h3]
        simp only [coinBaseEntitysOf, List.map_cons, List.filterMap_cons, hcb, if_true,
          List.append_assoc]
        cases firstOwnedFrom ContainsAddress (loadOne deserialize e)
          (loadOne deserialize e).outputs 0 <;> simp
      · intro h
        rw [h4]
        simp only [spentBy, List.map_cons, List.mem_cons, exists_eq_or_imp, hcb,
          Bool.true_eq_false, false_and, false_or]
      · intro h
        rw [h5]
        simp only [mem_setInsert, List.map_cons, List.mem_cons, exists_eq_or_imp, hcb,
          true_and]
        constructor
        · rintro ((h | h) | h)
          · exact Or.inr (Or.inl h.symm)
          · exact Or.inl h
          · exact Or.inr (Or.inr h)
        · rintro (h | h | h)
          · exact Or.inl (Or.inr h)
          · exact Or.inl (Or.inl h.symm)
          · exact Or.inr h
    · have hcb' : (loadOne deserialize e).isCoinBase = false := by
        simpa using hcb
      simp only [hcb', Bool.false_eq_true, if_false]
      obtain ⟨st', h1, h2, h3, h4, h5⟩ := ih _ hfes
      refine ⟨st', h1, ?_, ?_, ?_, ?_⟩
      · simp [h2, hcb']
      · rw [h3]
        simp [coinBaseEntitysOf, hcb']
      · intro h
        rw [h4]
        simp only [mem_foldl_setInsert, spentBy, List.map_cons, List.mem_cons,
          exists_eq_or_imp, hcb', true_and]
        exact or_assoc
      · intro h
        rw [h5]
        simp [hcb']

theorem recordsOf_markSpent_ne (c h : String) (hne : h ≠ c) (ents : List CoinBaseUTXOEntity) :
    recordsOf c (markSpent h ents) = recordsOf c ents := by
  induction ents with
  | nil => rfl
  | cons e es ih =>
    unfold markSpent
    split
    · rename_i he
      have hec : e.txHash ≠ c := fun hc => hne (he.symm.trans hc)
      simp [recordsOf, List.filter_cons, hec]
    · simp only [recordsOf, List.filter_cons] at ih ⊢
      rw [ih]

theorem recordsOf_markSpent_eq (c : String) (ents : List CoinBaseUTXOEntity) :
    recordsOf c (markSpent c ents) = markHead (recordsOf c ents) := by
  induction ents with
  | nil => rfl
  | cons e es ih =>
    unfold markSpent
    split
    · rename_i he
      simp [recordsOf, List.filter_cons, he, markHead]
    · rename_i he
      simp only [recordsOf, List.filter_cons, he, decide_False, Bool.false_eq_true,
        if_false] at ih ⊢
      exact ih

theorem recordsOf_foldl_markSpent (c : String) :
    ∀ (hs : List String) (ents : List CoinBaseUTXOEntity) (e0 : CoinBaseUTXOEntity),
      recordsOf c ents = [e0] →
      recordsOf c (hs.foldl (fun ents hash => markSpent hash ents) ents)
        = [{ e0 with spent := e0.spent || decide (c ∈ hs) }] := by
  intro hs
  induction hs with
  | nil =>
    intro ents e0 h
    simp [h]
  | cons h hs ih =>
    intro ents e0 h0
    simp only [List.foldl_cons]
    by_cases hc : h = c
    · subst hc
      have h1 : recordsOf h (markSpent h ents) = [{ e0 with spent := true }] := by
        rw [recordsOf_markSpent_eq, h0]; rfl
      rw [ih _ _ h1]
      simp
    · have h1 : recordsOf c (markSpent h ents) = [e0] := by
        rw [recordsOf_markSpent_ne c h hc, h0]
      rw [ih _ _ h1]
      have hc' : ¬ c = h := fun e => hc e.symm
      simp [hc']

theorem firstOwnedFrom_some (ContainsAddress : String → Bool) (tx : Transaction) :
    ∀ (outs : List TxOutput) (n : Nat), (∃ o ∈ outs, ContainsAddress o.address = true) →
      ∃ e, firstOwnedFrom ContainsAddress tx outs n = some e := by
  intro outs
  induction outs with
  | nil => intro n h; simp at h
  | cons o os ih =>
    intro n h
    unfold firstOwnedFrom
    split
    · exact ⟨_, rfl⟩
    · rename_i hno
      apply ih
      obtain ⟨o', ho', hc⟩ := h
      rcases List.mem_cons.mp ho' with rfl | hmem
      · exact absurd hc hno
      · exact ⟨o', hmem, hc⟩

theorem firstOwnedFrom_props (ContainsAddress : String → Bool) (tx : Transaction) :
    ∀ (outs : List TxOutput) (n : Nat) (e : CoinBaseUTXOEntity),
      firstOwnedFrom ContainsAddress tx outs n = some e →
      e.txHash = tx.hash ∧ e.spent = false := by
  intro outs
  induction outs with
  | nil => intro n e h; simp [firstOwnedFrom] at h
  | cons o os ih =>
    intro n e h
    unfold firstOwnedFrom at h
    split at h
    · cases h; exact ⟨rfl, rfl⟩
    · exact ih _ _ h

theorem recordsOf_entitys_absent (ContainsAddress : String → Bool) (c : String) :
    ∀ txs : List Transaction, c ∉ txs.map (fun t => t.hash) →
      recordsOf c (coinBaseEntitysOf ContainsAddress txs) = [] := by
  intro txs
  induction txs with
  | nil => intro _; rfl
  | cons t ts ih =>
    intro h
    simp only [List.map_cons, List.mem_cons, not_or] at h
    have iht := ih h.2
    simp only [coinBaseEntitysOf, recordsOf, List.filterMap_cons] at iht ⊢
    split
    · exact iht
    · rename_i e he
      split at he
      · have hp := firstOwnedFrom_props ContainsAddress t t.outputs 0 e he
        have hne : ¬ e.txHash = c := fun hh => h.1 (by rw [← hh, hp.1])
        simp only [List.filter_cons, hne, decide_False, Bool.false_eq_true, if_false]
        exact iht
      · cases he

theorem recordsOf_entitys_unique (ContainsAddress : String → Bool) (C : Transaction)
    (e0 : CoinBaseUTXOEntity) (hcb : C.isCoinBase = true)
    (he0 : firstOwnedFrom ContainsAddress C C.outputs 0 = some e0) :
    ∀ txs : List Transaction, (txs.map (fun t => t.hash)).Nodup → C ∈ txs →
      recordsOf C.hash (coinBaseEntitysOf ContainsAddress txs) = [e0] := by
  have hp0 := firstOwnedFrom_props ContainsAddress C C.outputs 0 e0 he0
  intro txs
  induction txs with
  | nil => intro _ h; simp at h
  | cons t ts ih =>
    intro hnd hmem
    simp only [List.map_cons, List.nodup_cons] at hnd
    rcases List.mem_cons.mp hmem with rfl | hin
    · have habs := recordsOf_entitys_absent ContainsAddress C.hash ts hnd.1
      simp only [coinBaseEntitysOf, recordsOf, List.filterMap_cons, hcb, if_true, he0,
        List.filter_cons, hp0.1, decide_True] at habs ⊢
      rw [habs]
    · have iht := ih hnd.2 hin
      have hne : t.hash ≠ C.hash := by
        intro hh
        apply hnd.1
        rw [hh]
        exact List.mem_map.mpr ⟨C, hin, rfl⟩
      simp only [coinBaseEntitysOf, recordsOf, List.filterMap_cons] at iht ⊢
      split
      · exact iht
      · rename_i e he
        split at he
        · have hp := firstOwnedFrom_props ContainsAddress t t.outputs 0 e he
          have hne' : ¬ e.txHash = C.hash := fun hh => hne (by rw [← hp.1, hh])
          simp only [List.filter_cons, hne', decide_False, Bool.false_eq_true, if_false]
          exact iht
        · cases he

/-- C10 (amended): when the stored transactions have pairwise distinct hashes and fewer than
65536 inputs and outputs each, and a stored coinbase transaction `C` has an output paying an
address the sub-account contains, `loadTransactions` returns, the bulk `PutCoinBase` call
carries exactly one record with the hash of `C`, and that record is marked spent if and only
if some stored transaction that is not coinbase has an input referencing the hash of `C`. -/
theorem C10_coinbase_record_spent (deserialize : List Byte → Bool × Transaction)
    (ContainsAddress : String → Bool) (fuel : Nat) (txsEntity : List TransactionEntity)
    (C : Transaction) (hf : 65536 ≤ fuel)
    (hfit : countsFit (txsEntity.map (loadOne deserialize)))
    (hnodup : ((txsEntity.map (loadOne deserialize)).map (fun t => t.hash)).Nodup)
    (hC : C ∈ txsEntity.map (loadOne deserialize)) (hcb : C.isCoinBase = true)
    (hown : ∃ o ∈ C.outputs, ContainsAddress o.address = true) :
    ∃ r e, loadTransactions deserialize ContainsAddress fuel txsEntity = some r ∧
      recordsOf C.hash r.putCoinBase = [e] ∧
      (e.spent = true ↔ spentBy (txsEntity.map (loadOne deserialize)) C.hash) := by
  obtain ⟨st, hst, -, hents, hspent, -⟩ :=
    loadLoop_spec deserialize ContainsAddress fuel hf txsEntity {} hfit
  obtain ⟨e0, he0⟩ := firstOwnedFrom_some ContainsAddress C C.outputs 0 hown
  have hp0 := firstOwnedFrom_props ContainsAddress C C.outputs 0 e0 he0
  have huniq := recordsOf_entitys_unique ContainsAddress C e0 hcb he0 _ hnodup hC
  have hents' : st.coinBaseEntitys
      = coinBaseEntitysOf ContainsAddress (txsEntity.map (loadOne deserialize)) := by
    rw [hents]; rfl
  rw [← hents'] at huniq
  have hmark := recordsOf_foldl_markSpent C.hash st.spentHashes st.coinBaseEntitys e0 huniq
  refine ⟨{ txs := st.txs,
            calls := [.PutCoinBase (st.spentHashes.foldl (fun ents hash => markSpent hash ents)
              st.coinBaseEntitys), .DeleteTxByHashes st.coinBaseHashes] },
    { e0 with spent := e0.spent || decide (C.hash ∈ st.spentHashes) }, ?_, ?_, ?_⟩
  · simp only [loadTransactions, hst]
  · simp only [LoadResult.putCoinBase, List.foldr_cons, List.foldr_nil, List.append_nil]
    exact hmark
  · have hs := hspent C.hash
    simp only [hp0.2, Bool.false_or, decide_eq_true_eq]
    rw [hs]
    constructor
    · rintro (h | h)
      · cases h
      · exact h
    · exact Or.inr

/-- Witness of `C10_coinbase_record_spent`: the sample coinbase row followed by an ordinary
row whose transaction spends it. -/
theorem C10_coinbase_record_spent_witness :
    (countsFit ([⟨[1], 10, 20, "c0"⟩, ⟨[3], 11, 21, "t2"⟩].map (loadOne sampleDeserialize)) ∧
      (([⟨[1], 10, 20, "c0"⟩, ⟨[3], 11, 21, "t2"⟩].map (loadOne sampleDeserialize)).map
        (fun t => t.hash)).Nodup ∧
      loadOne sampleDeserialize ⟨[1], 10, 20, "c0"⟩ ∈
        [⟨[1], 10, 20, "c0"⟩, ⟨[3], 11, 21, "t2"⟩].map (loadOne sampleDeserialize) ∧
      (loadOne sampleDeserialize ⟨[1], 10, 20, "c0"⟩).isCoinBase = true ∧
      ∃ o ∈ (loadOne sampleDeserialize ⟨[1], 10, 20, "c0"⟩).outputs,
        sampleContains o.address = true) ∧
    ∃ r e, loadTransactions sampleDeserialize sampleContains 65536
        [⟨[1], 10, 20, "c0"⟩, ⟨[3], 11, 21, "t2"⟩] = some r ∧
      recordsOf (loadOne sampleDeserialize ⟨[1], 10, 20, "c0"⟩).hash r.putCoinBase = [e] ∧
      (e.spent = true ↔
        spentBy ([⟨[1], 10, 20, "c0"⟩, ⟨[3], 11, 21, "t2"⟩].map (loadOne sampleDeserialize))
          (loadOne sampleDeserialize ⟨[1], 10, 20, "c0"⟩).hash) :=
  ⟨⟨by decide, by decide, by decide, by decide, by decide⟩,
    C10_coinbase_record_spent sampleDeserialize sampleContains 65536
      [⟨[1], 10, 20, "c0"⟩, ⟨[3], 11, 21, "t2"⟩] (loadOne sampleDeserialize ⟨[1], 10, 20, "c0"⟩)
      (by decide) (by decide) (by decide) (by decide) (by decide)
      (by decide)⟩

/-- C10 (counterexample): the stored rows are the sample coinbase transaction `c0`, which pays
the owned address `"A"`, and the coinbase transaction `c1`, which has an input referencing
`c0`; `loadTransactions` upserts one record for `c0`, and it is not marked spent. -/
theorem C10_counterexample :
    (loadOne sampleDeserialize ⟨[1], 10, 20, "c0"⟩).isCoinBase = true ∧
    (loadOne sampleDeserialize ⟨[1], 10, 20, "c0"⟩).hash = "c0" ∧
    (∃ o ∈ (loadOne sampleDeserialize ⟨[1], 10, 20, "c0"⟩).outputs,
      sampleContains o.address = true) ∧
    (loadOne sampleDeserialize ⟨[2], 11, 21, "c1"⟩).hash = "c1" ∧
    (∃ i ∈ (loadOne sampleDeserialize ⟨[2], 11, 21, "c1"⟩).inputs, i.txHash = "c0") ∧
    loadTransactions sampleDeserialize sampleContains 65536
        [⟨[1], 10, 20, "c0"⟩, ⟨[2], 11, 21, "c1"⟩] =
      some { txs := [],
             calls := [.PutCoinBase [{ spent := false, txHash := "c0", blockHeight := 10,
                                       timestamp := 20, amount := 50, outputLock := 0,
                                       assetID := 0, programHash := 9, index := 1 }],
                       .DeleteTxByHashes ["c0", "c1"]] } := by
  refine ⟨by decide, by decide, by decide, by decide, by decide, ?_⟩
  decide

end SpvService

/-! ## SpvService: publishing and the reconnect state machine -/

namespace SpvService

/-- C15: `PublishTransaction` called while the connection state is `Connected` makes a single
call, the peer manager's `PublishTransaction`, and leaves the auto-reconnect flag and the timer
as they were; called in any other state it calls, in this order, `SetReconnectEnableStatus(false)`,
`cancel` on the timer if there is one, `Disconnect`, `SetReconnectEnableStatus(true)`, `Connect`,
and then the peer manager's `PublishTransaction` as the last call. -/
theorem C15_publish_transaction (M : PeerManagerModel) (s : State) (tx : Transaction) :
    (s.connectStatus = .Connected →
      (PublishTransaction M s tx).trace = s.trace ++ [.PublishTransaction tx] ∧
      (PublishTransaction M s tx).reconnectEnableStatus = s.reconnectEnableStatus ∧
      (PublishTransaction M s tx)._reconnectTimer = s._reconnectTimer) ∧
    (s.connectStatus ≠ .Connected →
      (PublishTransaction M s tx).trace = s.trace ++ [.SetReconnectEnableStatus false] ++
        (if s._reconnectTimer.isSome then [.timerCancel] else []) ++
        [.Disconnect, .SetReconnectEnableStatus true, .Connect, .PublishTransaction tx]) := by
  constructor
  · intro h
    simp [PublishTransaction, h, State.PublishTransaction]
  · intro h
    cases ht : s._reconnectTimer <;>
      simp [PublishTransaction, h, ht, State.PublishTransaction, State.Connect,
        State.Disconnect, State.SetReconnectEnableStatus, State.timerCancel]

/-- Witness of `C15_publish_transaction`: the connected sample session, and the same session
disconnected with a timer pending. -/
theorem C15_publish_transaction_witness :
    (sampleState.connectStatus = .Connected ∧
      ({ sampleState with connectStatus := .Disconnected,
                          _reconnectTimer := some ⟨5, true⟩ } : State).connectStatus
        ≠ .Connected) ∧
    (PublishTransaction samplePeerManager sampleState sampleTx).trace
      = sampleState.trace ++ [.PublishTransaction sampleTx] ∧
    (PublishTransaction samplePeerManager
        { sampleState with connectStatus := .Disconnected, _reconnectTimer := some ⟨5, true⟩ }
        sampleTx).trace
      = [] ++ [.SetReconnectEnableStatus false] ++
        (if (some (⟨5, true⟩ : DeadlineTimer)).isSome then [.timerCancel] else []) ++
        [.Disconnect, .SetReconnectEnableStatus true, .Connect, .PublishTransaction sampleTx] :=
  ⟨⟨by decide, by decide⟩,
    ((C15_publish_transaction samplePeerManager sampleState sampleTx).1 (by decide)).1,
    (C15_publish_transaction samplePeerManager
      { sampleState with connectStatus := .Disconnected, _reconnectTimer := some ⟨5, true⟩ }
      sampleTx).2 (by decide)⟩

end SpvService

namespace SpvService

theorem syncIsInactive_guard_false (M : PeerManagerModel) (s : State) (time : Nat)
    (h : s.reconnectEnableStatus = false ∨ s.reconnectTaskCount ≠ 0) :
    syncIsInactive M s time = s := by
  unfold syncIsInactive
  rcases h with h | h
  · simp [h]
  · simp [h]

theorem syncIsInactive_acted (M : PeerManagerModel) (s : State) (d : Nat)
    (h1 : s.reconnectEnableStatus = true) (h2 : s.reconnectTaskCount = 0) :
    (syncIsInactive M s d).reconnectTaskCount = 1 ∧
    (syncIsInactive M s d).trace.drop s.trace.length =
      (if s._reconnectTimer.isSome then [.timerCancel] else []) ++
      [.SetReconnectTaskCount 1, .executorStopThread, .SetReconnectEnableStatus false] ++
      (if s.connectStatus = .Connected then [.Disconnect] else []) ++
      [.executorInitThread 1, .SetReconnectEnableStatus true, .timerNew d, .Lock] ++
      (if s.peers.isEmpty then [.GetAllPeers, .SetPeers (loadPeers s.peerStore)] else []) ++
      [.Unlock, .timerAsyncWait, .serviceRestart, .serviceRunOne] := by
  cases ht : s._reconnectTimer <;> by_cases hc : s.connectStatus = .Connected <;>
    cases hp : s.peers <;>
    simp [syncIsInactive, StartReconnect, h1, h2, ht, hc, hp, State.SetReconnectTaskCount,
      State.SetReconnectEnableStatus, State.Disconnect, State.timerCancel, State.record,
      State.SetPeers]

/-- C17: with auto-reconnect enabled and no reconnect outstanding, `syncIsInactive(d)` cancels
and drops an existing timer, sets the outstanding count to 1, stops the worker executor,
disables auto-reconnect, calls `Disconnect` exactly when the connection state is `Connected`,
restarts the worker executor, re-enables auto-reconnect, creates one timer of `d` seconds,
seeds the peers when none are known, and registers the wait on the timer, in that order; it
ends with auto-reconnect enabled, the count at 1 and that timer present with its wait pending. -/
theorem C17_sync_inactive_transition (M : PeerManagerModel) (s : State) (d : Nat)
    (h1 : s.reconnectEnableStatus = true) (h2 : s.reconnectTaskCount = 0) :
    (syncIsInactive M s d).trace = s.trace ++
      (if s._reconnectTimer.isSome then [.timerCancel] else []) ++
      [.SetReconnectTaskCount 1, .executorStopThread, .SetReconnectEnableStatus false] ++
      (if s.connectStatus = .Connected then [.Disconnect] else []) ++
      [.executorInitThread 1, .SetReconnectEnableStatus true, .timerNew d, .Lock] ++
      (if s.peers.isEmpty then [.GetAllPeers, .SetPeers (loadPeers s.peerStore)] else []) ++
      [.Unlock, .timerAsyncWait, .serviceRestart, .serviceRunOne] ∧
    (syncIsInactive M s d).reconnectEnableStatus = true ∧
    (syncIsInactive M s d).reconnectTaskCount = 1 ∧
    (syncIsInactive M s d)._reconnectTimer = some { expires := d, waiting := true } := by
  cases ht : s._reconnectTimer <;> by_cases hc : s.connectStatus = .Connected <;>
    cases hp : s.peers <;>
    simp [syncIsInactive, StartReconnect, h1, h2, ht, hc, hp, State.SetReconnectTaskCount,
      State.SetReconnectEnableStatus, State.Disconnect, State.timerCancel, State.record,
      State.SetPeers]

/-- Witness of `C17_sync_inactive_transition`: the sample session and a delay of 30 seconds. -/
theorem C17_sync_inactive_transition_witness :
    (sampleState.reconnectEnableStatus = true ∧ sampleState.reconnectTaskCount = 0) ∧
    (syncIsInactive samplePeerManager sampleState 30).trace =
      [.SetReconnectTaskCount 1, .executorStopThread, .SetReconnectEnableStatus false,
       .Disconnect, .executorInitThread 1, .SetReconnectEnableStatus true, .timerNew 30, .Lock,
       .GetAllPeers, .SetPeers [⟨1, 20866, 100⟩, ⟨2, 20866, 200⟩], .Unlock, .timerAsyncWait,
       .serviceRestart, .serviceRunOne] ∧
    (syncIsInactive samplePeerManager sampleState 30).reconnectEnableStatus = true ∧
    (syncIsInactive samplePeerManager sampleState 30).reconnectTaskCount = 1 ∧
    (syncIsInactive samplePeerManager sampleState 30)._reconnectTimer
      = some { expires := 30, waiting := true } :=
  ⟨⟨rfl, rfl⟩, C17_sync_inactive_transition samplePeerManager sampleState 30 rfl rfl⟩

/-- C16: with auto-reconnect disabled or a reconnect outstanding, `syncIsInactive(d)` changes
nothing: timer, outstanding count, auto-reconnect flag, peer list and connection state are as
before and no call is recorded. So a second signal after one that was acted upon (the count
being 1) is void: two signals in succession create and arm one timer and set the count once. -/
theorem C16_sync_inactive_noop (M : PeerManagerModel) (s : State) (d d' : Nat) :
    (s.reconnectEnableStatus = false ∨ s.reconnectTaskCount ≠ 0 →
      syncIsInactive M s d = s) ∧
    (s.reconnectEnableStatus = true ∧ s.reconnectTaskCount = 0 →
      syncIsInactive M (syncIsInactive M s d) d' = syncIsInactive M s d ∧
      (syncIsInactive M (syncIsInactive M s d) d').reconnectTaskCount = 1 ∧
      ((syncIsInactive M (syncIsInactive M s d) d').trace.drop s.trace.length).count
        .timerAsyncWait = 1 ∧
      ((syncIsInactive M (syncIsInactive M s d) d').trace.drop s.trace.length).count
        (.timerNew d) = 1 ∧
      ((syncIsInactive M (syncIsInactive M s d) d').trace.drop s.trace.length).count
        (.SetReconnectTaskCount 1) = 1) := by
  refine ⟨syncIsInactive_guard_false M s d, ?_⟩
  rintro ⟨h1, h2⟩
  obtain ⟨hcount, ht⟩ := syncIsInactive_acted M s d h1 h2
  have hnoop := syncIsInactive_guard_false M (syncIsInactive M s d) d'
    (Or.inr (by rw [hcount]; decide))
  rw [hnoop]
  refine ⟨rfl, hcount, ?_, ?_, ?_⟩ <;>
  · rw [ht]
    cases s._reconnectTimer <;> by_cases hc : s.connectStatus = .Connected <;>
      cases s.peers <;> simp [hc, List.count_cons]

/-- Witness of `C16_sync_inactive_noop`: the sample session with a reconnect outstanding, and
two signals in succession on the sample session. -/
theorem C16_sync_inactive_noop_witness :
    (({ sampleState with reconnectTaskCount := 1 } : State).reconnectEnableStatus = false ∨
      ({ sampleState with reconnectTaskCount := 1 } : State).reconnectTaskCount ≠ 0) ∧
    syncIsInactive samplePeerManager { sampleState with reconnectTaskCount := 1 } 30
      = { sampleState with reconnectTaskCount := 1 } ∧
    (sampleState.reconnectEnableStatus = true ∧ sampleState.reconnectTaskCount = 0) ∧
    syncIsInactive samplePeerManager (syncIsInactive samplePeerManager sampleState 30) 10
      = syncIsInactive samplePeerManager sampleState 30 :=
  ⟨Or.inr (by decide),
    (C16_sync_inactive_noop samplePeerManager { sampleState with reconnectTaskCount := 1 }
      30 10).1 (Or.inr (by decide)),
    ⟨rfl, rfl⟩,
    ((C16_sync_inactive_noop samplePeerManager sampleState 30 10).2 ⟨rfl, rfl⟩).1⟩

end SpvService

namespace SpvService

/-- C18: `StartReconnect` seeds the peers only when needed. With an empty peer list it reads
the peer store and installs the result of `loadPeers` (one `PeerInfo` per stored row, with the
same address, port and timestamp, in storage order) before the wait on the timer is registered;
with a non-empty peer list the list stays as it is and the peer store is not read. -/
theorem C18_start_reconnect_seeds_peers (s : State) (time : Nat) :
    (s.peers = [] →
      (StartReconnect s time).peers = loadPeers s.peerStore ∧
      (StartReconnect s time).trace = s.trace ++
        [.timerNew time, .Lock, .GetAllPeers, .SetPeers (loadPeers s.peerStore), .Unlock,
         .timerAsyncWait, .serviceRestart, .serviceRunOne]) ∧
    (s.peers ≠ [] →
      (StartReconnect s time).peers = s.peers ∧
      (StartReconnect s time).trace = s.trace ++
        [.timerNew time, .Lock, .Unlock, .timerAsyncWait, .serviceRestart, .serviceRunOne]) ∧
    ((loadPeers s.peerStore).length = s.peerStore.length ∧
      (loadPeers s.peerStore).map (fun p => (p.Address, p.Port, p.Timestamp))
        = s.peerStore.map (fun e => (e.address, e.port, e.timeStamp))) := by
  refine ⟨?_, ?_, ?_⟩
  · intro h
    simp [StartReconnect, h, State.record, State.SetPeers]
  · intro h
    cases hp : s.peers with
    | nil => exact absurd hp h
    | cons p ps => simp [StartReconnect, hp, State.record]
  · simp [loadPeers, List.map_map, Function.comp_def]

/-- Witness of `C18_start_reconnect_seeds_peers`: the sample session, whose peer list is
empty, and the same session with one peer known. -/
theorem C18_start_reconnect_seeds_peers_witness :
    (sampleState.peers = [] ∧ ({ sampleState with peers := [⟨9, 1, 1⟩] } : State).peers ≠ []) ∧
    (StartReconnect sampleState 30).peers = [⟨1, 20866, 100⟩, ⟨2, 20866, 200⟩] ∧
    (StartReconnect { sampleState with peers := [⟨9, 1, 1⟩] } 30).peers = [⟨9, 1, 1⟩] ∧
    (StartReconnect { sampleState with peers := [⟨9, 1, 1⟩] } 30).trace = [] ++
      [.timerNew 30, .Lock, .Unlock, .timerAsyncWait, .serviceRestart, .serviceRunOne] :=
  ⟨⟨rfl, by decide⟩,
    ((C18_start_reconnect_seeds_peers sampleState 30).1 rfl).1,
    ((C18_start_reconnect_seeds_peers { sampleState with peers := [⟨9, 1, 1⟩] } 30).2.1
      (by decide)).1,
    ((C18_start_reconnect_seeds_peers { sampleState with peers := [⟨9, 1, 1⟩] } 30).2.1
      (by decide)).2⟩

theorem Stop_flags (M : PeerManagerModel) (s : State) :
    (Stop M s).reconnectEnableStatus = false ∧ (Stop M s).reconnectTaskCount = 0 ∧
    (Stop M s)._reconnectTimer = none := by
  cases ht : s._reconnectTimer <;>
    simp [Stop, ht, State.SetReconnectTaskCount, State.SetReconnectEnableStatus,
      State.Disconnect, State.timerCancel, State.record]

theorem foldl_syncIsInactive_disabled (M : PeerManagerModel) (delays : List Nat) :
    ∀ s : State, s.reconnectEnableStatus = false →
      delays.foldl (syncIsInactive M) s = s := by
  induction delays with
  | nil => intro s _; rfl
  | cons d ds ih =>
    intro s h
    simp only [List.foldl_cons]
    rw [syncIsInactive_guard_false M s d (Or.inl h)]
    exact ih s h

/-- C19: after `Stop` the reconnect timer is absent, having been cancelled if there was one,
the outstanding-reconnect count is 0, auto-reconnect is disabled and one `Disconnect` has been
issued; every sequence of `syncIsInactive` signals after that leaves the session as `Stop` left
it: no timer is created or armed, no connect attempt and no store access is made. -/
theorem C19_stop_quiescent (M : PeerManagerModel) (s : State) (delays : List Nat) :
    (Stop M s)._reconnectTimer = none ∧
    (Stop M s).reconnectTaskCount = 0 ∧
    (Stop M s).reconnectEnableStatus = false ∧
    (Stop M s).trace = s.trace ++
      (if s._reconnectTimer.isSome then [.timerCancel] else []) ++
      [.SetReconnectTaskCount 0, .SetReconnectEnableStatus false, .Disconnect,
       .executorStopThread, .reconnectExecutorStopThread] ∧
    delays.foldl (syncIsInactive M) (Stop M s) = Stop M s := by
  obtain ⟨h1, h2, h3⟩ := Stop_flags M s
  refine ⟨h3, h2, h1, ?_, foldl_syncIsInactive_disabled M delays _ h1⟩
  cases ht : s._reconnectTimer <;>
    simp [Stop, ht, State.SetReconnectTaskCount, State.SetReconnectEnableStatus,
      State.Disconnect, State.timerCancel, State.record]

/-- C20 (evaluation at the failing input): `networkIsReachable` returns true whatever the
listeners answer, because the accumulator starts at `true`; in particular it returns true with
two listeners that both report the network unreachable, and with no listener at all. -/
theorem C20_network_reachable_always_true :
    (∀ answers : List Bool, networkIsReachable answers = true) ∧
    networkIsReachable [false, false] = true ∧
    [false, false].any id = false ∧
    networkIsReachable [] = true := by
  refine ⟨?_, rfl, rfl, rfl⟩
  intro answers
  have key : ∀ (l : List Bool), l.foldl (fun reachable answer => reachable || answer) true
      = true := by
    intro l
    induction l with
    | nil => rfl
    | cons a as ih => simpa using ih
  exact key answers

end SpvService

/-! ## SpvService: the 16-bit loop counters and the ignored decode results -/

namespace SpvService

theorem scanOutputs_none (ContainsAddress : String → Bool) (tx : Transaction)
    (h : ∀ i, i < 65536 → ∃ o, tx.outputs[i]? = some o ∧ ContainsAddress o.address = false) :
    ∀ (fuel n : Nat), n < 65536 → scanOutputs ContainsAddress tx fuel n = none := by
  intro fuel
  induction fuel with
  | zero => intro n _; rfl
  | succ f ih =>
    intro n hn
    obtain ⟨o, ho, hc⟩ := h n hn
    simp only [scanOutputs, ho, hc, Bool.false_eq_true, if_false]
    exact ih _ (Nat.mod_lt _ (by decide))

theorem scanInputs_none (tx : Transaction) (h : 65536 ≤ tx.inputs.length) :
    ∀ (fuel n : Nat) (acc : List String), n < 65536 → scanInputs tx fuel n acc = none := by
  intro fuel
  induction fuel with
  | zero => intro n acc _; rfl
  | succ f ih =>
    intro n acc hn
    have hlt : n < tx.inputs.length := by omega
    simp only [scanInputs, List.getElem?_eq_getElem hlt]
    exact ih _ _ (Nat.mod_lt _ (by decide))

theorem loadLoop_none (deserialize : List Byte → Bool × Transaction)
    (ContainsAddress : String → Bool) (fuel : Nat) (e : TransactionEntity)
    (he : ∀ st, loadStep deserialize ContainsAddress fuel st e = none) :
    ∀ (es : List TransactionEntity) (st : LoadState), e ∈ es →
      loadLoop deserialize ContainsAddress fuel st es = none := by
  intro es
  induction es with
  | nil => intro st h; simp at h
  | cons x xs ih =>
    intro st h
    rcases List.mem_cons.mp h with rfl | hmem
    · simp [loadLoop, he]
    · unfold loadLoop
      cases hx : loadStep deserialize ContainsAddress fuel st x with
      | none => rfl
      | some st1 => exact ih st1 hmem

theorem loadTransactions_none (deserialize : List Byte → Bool × Transaction)
    (ContainsAddress : String → Bool) (fuel : Nat) (e : TransactionEntity)
    (he : ∀ st, loadStep deserialize ContainsAddress fuel st e = none)
    (es : List TransactionEntity) (hmem : e ∈ es) :
    loadTransactions deserialize ContainsAddress fuel es = none := by
  simp [loadTransactions, loadLoop_none deserialize ContainsAddress fuel e he es {} hmem]

theorem wide_outputs (bh ts : Nat) (key : String) :
    (loadOne wideDeserialize ⟨[1], bh, ts, key⟩).isCoinBase = true ∧
    (loadOne wideDeserialize ⟨[1], bh, ts, key⟩).outputs
      = List.replicate 65536 ⟨"B", 1, 0, 0, 8⟩ ++ [⟨"A", 50, 0, 0, 9⟩] :=
  ⟨rfl, rfl⟩

theorem wide_inputs (bh ts : Nat) (key : String) :
    (loadOne wideDeserialize ⟨[2], bh, ts, key⟩).isCoinBase = false ∧
    (loadOne wideDeserialize ⟨[2], bh, ts, key⟩).inputs = List.replicate 65536 ⟨"c0"⟩ :=
  ⟨rfl, rfl⟩

theorem loadStep_wide_outputs (fuel : Nat) (st : LoadState) (bh ts : Nat) (key : String) :
    loadStep wideDeserialize sampleContains fuel st ⟨[1], bh, ts, key⟩ = none := by
  obtain ⟨hcb, hout⟩ := wide_outputs bh ts key
  have hs := scanOutputs_none sampleContains (loadOne wideDeserialize ⟨[1], bh, ts, key⟩)
    (by
      intro i hi
      refine ⟨⟨"B", 1, 0, 0, 8⟩, ?_, by decide⟩
      rw [hout, List.getElem?_append_left (by rw [List.length_replicate]; exact hi)]
      exact List.getElem?_replicate_of_lt hi) fuel 0 (by decide)
  simp only [loadStep, hcb, if_true, hs]

theorem loadStep_wide_inputs (fuel : Nat) (st : LoadState) (bh ts : Nat) (key : String) :
    loadStep wideDeserialize sampleContains fuel st ⟨[2], bh, ts, key⟩ = none := by
  obtain ⟨hcb, hin⟩ := wide_inputs bh ts key
  have hs := scanInputs_none (loadOne wideDeserialize ⟨[2], bh, ts, key⟩)
    (by rw [hin, List.length_replicate]) fuel 0 st.spentHashes (by decide)
  simp only [loadStep, hcb, Bool.false_eq_true, if_false, hs]

end SpvService

namespace SpvService

theorem firstOwnedFrom_lowest (ContainsAddress : String → Bool) (tx : Transaction) :
    ∀ (outs : List TxOutput) (n : Nat) (e : CoinBaseUTXOEntity),
      firstOwnedFrom ContainsAddress tx outs n = some e →
      ∃ pre o post, outs = pre ++ o :: post ∧ (∀ p ∈ pre, ContainsAddress p.address = false) ∧
        ContainsAddress o.address = true ∧ e = entityOf tx o (n + pre.length) := by
  intro outs
  induction outs with
  | nil => intro n e h; simp [firstOwnedFrom] at h
  | cons o os ih =>
    intro n e h
    unfold firstOwnedFrom at h
    split at h
    · rename_i ho
      cases h
      exact ⟨[], o, os, rfl, by simp, ho, rfl⟩
    · rename_i ho
      obtain ⟨pre, o', post, h1, h2, h3, h4⟩ := ih _ _ h
      refine ⟨o :: pre, o', post, by rw [h1]; rfl, ?_, h3, ?_⟩
      · intro p hp
        rcases List.mem_cons.mp hp with rfl | hp
        · simpa using ho
        · exact h2 p hp
      · rw [h4, List.length_cons]
        congr 1
        omega

theorem firstOwnedFrom_eq_none (ContainsAddress : String → Bool) (tx : Transaction) :
    ∀ (outs : List TxOutput) (n : Nat),
      firstOwnedFrom ContainsAddress tx outs n = none ↔
        ∀ o ∈ outs, ContainsAddress o.address = false := by
  intro outs
  induction outs with
  | nil => intro n; simp [firstOwnedFrom]
  | cons o os ih =>
    intro n
    unfold firstOwnedFrom
    by_cases ho : ContainsAddress o.address = true
    · simp [ho]
    · simp [ho, ih]

theorem loadTransactions_of_countsFit (deserialize : List Byte → Bool × Transaction)
    (ContainsAddress : String → Bool) (fuel : Nat) (hf : 65536 ≤ fuel)
    (txsEntity : List TransactionEntity)
    (hfit : countsFit (txsEntity.map (loadOne deserialize))) :
    ∃ (spentHashes coinBaseHashes : List String),
      loadTransactions deserialize ContainsAddress fuel txsEntity = some
        { txs := (txsEntity.map (loadOne deserialize)).filter (fun t => !t.isCoinBase),
          calls := [.PutCoinBase (spentHashes.foldl (fun ents hash => markSpent hash ents)
              (coinBaseEntitysOf ContainsAddress (txsEntity.map (loadOne deserialize)))),
            .DeleteTxByHashes coinBaseHashes] } ∧
      (∀ h, h ∈ spentHashes ↔ spentBy (txsEntity.map (loadOne deserialize)) h) ∧
      (∀ h, h ∈ coinBaseHashes ↔
        ∃ T ∈ txsEntity.map (loadOne deserialize), T.isCoinBase = true ∧ T.hash = h) := by
  obtain ⟨st, hst, h1, h2, h3, h4⟩ :=
    loadLoop_spec deserialize ContainsAddress fuel hf txsEntity {} hfit
  refine ⟨st.spentHashes, st.coinBaseHashes, ?_, ?_, ?_⟩
  · simp only [loadTransactions, hst, h1, h2, List.nil_append]
  · intro h
    rw [h3]
    simp
  · intro h
    rw [h4]
    simp

/-- C11 (evaluation at the failing input): the only stored row decodes to a coinbase transaction
with 65537 outputs whose single owned output is the last one, at index 65536. Whatever the
number of iterations allowed, `loadTransactions` does not return: the 16-bit counter of the loop
over the outputs wraps from 65535 to 0 and never reaches that output, so no record for it is
ever made. -/
theorem C11_wide_coinbase_not_recorded :
    (loadOne wideDeserialize ⟨[1], 10, 20, "c0"⟩).isCoinBase = true ∧
    (loadOne wideDeserialize ⟨[1], 10, 20, "c0"⟩).outputs.length = 65537 ∧
    (∃ o, (loadOne wideDeserialize ⟨[1], 10, 20, "c0"⟩).outputs[65536]? = some o ∧
      sampleContains o.address = true) ∧
    ∀ fuel, loadTransactions wideDeserialize sampleContains fuel [⟨[1], 10, 20, "c0"⟩]
      = none := by
  obtain ⟨hcb, hout⟩ := wide_outputs 10 20 "c0"
  refine ⟨hcb, ?_, ⟨⟨"A", 50, 0, 0, 9⟩, ?_, by decide⟩, ?_⟩
  · rw [hout, List.length_append, List.length_replicate]
    rfl
  · rw [hout, List.getElem?_append_right (by rw [List.length_replicate]),
      List.length_replicate]
    rfl
  · intro fuel
    exact loadTransactions_none wideDeserialize sampleContains fuel ⟨[1], 10, 20, "c0"⟩
      (fun st => loadStep_wide_outputs fuel st 10 20 "c0") _ (by simp)

/-- C12 (evaluation at the failing input): the only stored row decodes to an ordinary
transaction with 65536 inputs. Whatever the number of iterations allowed, `loadTransactions`
does not return a sequence: the 16-bit counter of the loop over the inputs wraps from 65535 to
0 and stays below the number of inputs. -/
theorem C12_wide_inputs_not_returned :
    (loadOne wideDeserialize ⟨[2], 11, 21, "t1"⟩).isCoinBase = false ∧
    (loadOne wideDeserialize ⟨[2], 11, 21, "t1"⟩).inputs.length = 65536 ∧
    ∀ fuel, loadTransactions wideDeserialize sampleContains fuel [⟨[2], 11, 21, "t1"⟩]
      = none := by
  obtain ⟨hcb, hin⟩ := wide_inputs 11 21 "t1"
  refine ⟨hcb, by rw [hin, List.length_replicate], ?_⟩
  intro fuel
  exact loadTransactions_none wideDeserialize sampleContains fuel ⟨[2], 11, 21, "t1"⟩
    (fun st => loadStep_wide_inputs fuel st 11 21 "t1") _ (by simp)

/-- C13 (evaluation at the failing input): the stored rows are a coinbase transaction paying
the owned address `"A"` followed by an ordinary transaction with 65536 inputs. Whatever the
number of iterations allowed, `loadTransactions` does not get past the loop over those inputs,
so neither the bulk `PutCoinBase` nor `DeleteTxByHashes` is called and the coinbase row stays
in the transaction store. -/
theorem C13_wide_inputs_no_database_call :
    (loadOne wideDeserialize ⟨[3], 10, 20, "c2"⟩).isCoinBase = true ∧
    (∃ o ∈ (loadOne wideDeserialize ⟨[3], 10, 20, "c2"⟩).outputs,
      sampleContains o.address = true) ∧
    (loadOne wideDeserialize ⟨[2], 11, 21, "t1"⟩).inputs.length = 65536 ∧
    ∀ fuel, loadTransactions wideDeserialize sampleContains fuel
      [⟨[3], 10, 20, "c2"⟩, ⟨[2], 11, 21, "t1"⟩] = none := by
  obtain ⟨-, hin⟩ := wide_inputs 11 21 "t1"
  refine ⟨rfl, by decide, by rw [hin, List.length_replicate], ?_⟩
  intro fuel
  exact loadTransactions_none wideDeserialize sampleContains fuel ⟨[2], 11, 21, "t1"⟩
    (fun st => loadStep_wide_inputs fuel st 11 21 "t1") _ (by simp)

theorem loadBlocks_length {Block : Type} (CreateMerkleBlock : Block)
    (SetHeight : Block → Nat → Block) (Deserialize : Block → List Byte → Bool × Block)
    (blocksEntity : List MerkleBlockEntity) :
    (loadBlocks CreateMerkleBlock SetHeight Deserialize blocksEntity).1.length
      = blocksEntity.length := by
  induction blocksEntity with
  | nil => rfl
  | cons e es ih => simp [loadBlocks, ih]

/-- C14 (evaluation at the failing input): the first stored block row and the first stored
transaction row are empty and fail to deserialize. `loadBlocks` logs the failure of the block
and still returns it, ahead of the good one; `loadTransactions` does not look at the result of
`Deserialize` and returns the failed transaction, ahead of the good one. -/
theorem C14_failed_rows_are_returned :
    (sampleBlockDeserialize ⟨7, []⟩ []).1 = false ∧
    loadBlocks (⟨0, []⟩ : SampleBlock) (fun b h => { b with height := h })
      sampleBlockDeserialize [⟨[], 7⟩, ⟨[1], 8⟩]
      = ([⟨7, []⟩, ⟨8, [1]⟩], ["block deserialize fail"]) ∧
    (failingDeserialize []).1 = false ∧
    (loadTransactions failingDeserialize sampleContains 65536
      [⟨[], 5, 6, "t0"⟩, ⟨[3], 11, 21, "t2"⟩]).map (fun r => r.txs)
      = some [loadOne failingDeserialize ⟨[], 5, 6, "t0"⟩,
              loadOne failingDeserialize ⟨[3], 11, 21, "t2"⟩] := by
  refine ⟨rfl, rfl, rfl, ?_⟩
  decide

end SpvService

/-! ## BRUtilMath: comparisons of 256-bit integers -/

theorem UInt256.value_eq_iff (x y : UInt256) (hx : x.inRange) (hy : y.inRange) :
    x.value = y.value ↔ x = y := by
  obtain ⟨x0, x1, x2, x3⟩ := x
  obtain ⟨y0, y1, y2, y3⟩ := y
  simp only [UInt256.inRange] at hx hy
  simp only [UInt256.value, UInt256.mk.injEq]
  norm_num at hx hy ⊢
  omega

/-- C28: for limbs that fit 64 bits, `gtUInt256(x, y)` is non-zero exactly when
`value(x) > value(y)`, `ltUInt256` exactly when `value(x) < value(y)`, `geUInt256` exactly when
`value(x) >= value(y)` and `leUInt256` exactly when `value(x) <= value(y)`, `eqUInt256` being
equality of the four limbs; so exactly one of lt, eq, gt holds for every pair. -/
theorem C28_uint256_comparisons (x y : UInt256) (hx : x.inRange) (hy : y.inRange) :
    (gtUInt256 x y = true ↔ x.value > y.value) ∧
    (ltUInt256 x y = true ↔ x.value < y.value) ∧
    (geUInt256 x y = true ↔ x.value ≥ y.value) ∧
    (leUInt256 x y = true ↔ x.value ≤ y.value) ∧
    (eqUInt256 x y = true ↔ x = y) ∧
    ((ltUInt256 x y = true ∧ eqUInt256 x y = false ∧ gtUInt256 x y = false) ∨
     (ltUInt256 x y = false ∧ eqUInt256 x y = true ∧ gtUInt256 x y = false) ∨
     (ltUInt256 x y = false ∧ eqUInt256 x y = false ∧ gtUInt256 x y = true)) := by
  have hveq := UInt256.value_eq_iff x y hx hy
  obtain ⟨x0, x1, x2, x3⟩ := x
  obtain ⟨y0, y1, y2, y3⟩ := y
  simp only [UInt256.inRange] at hx hy
  have hgt : gtUInt256 ⟨x0, x1, x2, x3⟩ ⟨y0, y1, y2, y3⟩ = true ↔
      (⟨x0, x1, x2, x3⟩ : UInt256).value > (⟨y0, y1, y2, y3⟩ : UInt256).value := by
    simp only [gtUInt256, UInt256.value, Bool.or_eq_true, Bool.and_eq_true, decide_eq_true_eq,
      beq_iff_eq]
    norm_num at hx hy ⊢
    omega
  have hlt : ltUInt256 ⟨x0, x1, x2, x3⟩ ⟨y0, y1, y2, y3⟩ = true ↔
      (⟨x0, x1, x2, x3⟩ : UInt256).value < (⟨y0, y1, y2, y3⟩ : UInt256).value := by
    simp only [ltUInt256, UInt256.value, Bool.or_eq_true, Bool.and_eq_true, decide_eq_true_eq,
      beq_iff_eq]
    norm_num at hx hy ⊢
    omega
  have heq : eqUInt256 ⟨x0, x1, x2, x3⟩ ⟨y0, y1, y2, y3⟩ = true ↔
      (⟨x0, x1, x2, x3⟩ : UInt256) = ⟨y0, y1, y2, y3⟩ := by
    simp only [eqUInt256, UInt256Eq, Bool.and_eq_true, beq_iff_eq, UInt256.mk.injEq]
    tauto
  refine ⟨hgt, hlt, ?_, ?_, heq, ?_⟩
  · simp only [geUInt256, Bool.or_eq_true, heq, hgt, ← hveq]
    omega
  · simp only [leUInt256, Bool.or_eq_true, heq, hlt, ← hveq]
    omega
  · rcases Nat.lt_trichotomy (UInt256.value ⟨x0, x1, x2, x3⟩)
      (UInt256.value ⟨y0, y1, y2, y3⟩) with h | h | h
    · refine Or.inl ⟨hlt.mpr h, ?_, ?_⟩
      · rw [Bool.eq_false_iff]; intro he; rw [heq, ← hveq] at he; omega
      · rw [Bool.eq_false_iff]; intro he; rw [hgt] at he; omega
    · refine Or.inr (Or.inl ⟨?_, heq.mpr (hveq.mp h), ?_⟩)
      · rw [Bool.eq_false_iff]; intro he; rw [hlt] at he; omega
      · rw [Bool.eq_false_iff]; intro he; rw [hgt] at he; omega
    · refine Or.inr (Or.inr ⟨?_, ?_, hgt.mpr h⟩)
      · rw [Bool.eq_false_iff]; intro he; rw [hlt] at he; omega
      · rw [Bool.eq_false_iff]; intro he; rw [heq, ← hveq] at he; omega

/-- Witness of `C28_uint256_comparisons`: two values that differ in the top limb only. -/
theorem C28_uint256_comparisons_witness :
    ((⟨5, 0, 0, 1⟩ : UInt256).inRange ∧ (⟨9, 0, 0, 0⟩ : UInt256).inRange) ∧
    (gtUInt256 ⟨5, 0, 0, 1⟩ ⟨9, 0, 0, 0⟩ = true ↔
      (⟨5, 0, 0, 1⟩ : UInt256).value > (⟨9, 0, 0, 0⟩ : UInt256).value) :=
  ⟨⟨by decide, by decide⟩,
    (C28_uint256_comparisons ⟨5, 0, 0, 1⟩ ⟨9, 0, 0, 0⟩ (by decide) (by decide)).1⟩

/-! ## SpvService: listener fan-out and saving blocks -/

namespace SpvService

/-- C21: `onTxDeleted` and `onCoinBaseTxDeleted` first delete the record with the hash from the
store and then call every registered listener once, in registration order, with the hash and
the two flags they received; `RegisterWalletListener` puts the new listener last. -/
theorem C21_delete_then_notify (GetHex : Nat → String) (listeners : List Nat) (hash : Nat)
    (notifyUser recommendRescan : Bool) (listener : Nat) :
    onTxDeleted GetHex listeners hash notifyUser recommendRescan
      = Effect.DeleteTxByHash (GetHex hash) ::
        listeners.map (fun l => Effect.listenerOnTxDeleted l hash notifyUser recommendRescan) ∧
    onCoinBaseTxDeleted GetHex listeners hash notifyUser recommendRescan
      = Effect.DeleteCoinBase (GetHex hash) ::
        listeners.map
          (fun l => Effect.listenerOnCoinBaseTxDeleted l hash notifyUser recommendRescan) ∧
    RegisterWalletListener listeners listener = listeners ++ [listener] ∧
    onTxDeleted GetHex (RegisterWalletListener listeners listener) hash notifyUser
        recommendRescan
      = onTxDeleted GetHex listeners hash notifyUser recommendRescan ++
        [Effect.listenerOnTxDeleted listener hash notifyUser recommendRescan] := by
  refine ⟨rfl, rfl, rfl, ?_⟩
  simp [onTxDeleted, RegisterWalletListener]

theorem merkleBlockList_eq {Block : Type} (GetHeight : Block → Nat)
    (Serialize : Block → List Byte) (blocks : List Block) :
    merkleBlockList GetHeight Serialize blocks
      = (blocks.filter (fun b => decide (GetHeight b ≠ 0))).map
          (fun b => { blockBytes := Serialize b, blockHeight := GetHeight b }) := by
  induction blocks with
  | nil => rfl
  | cons b bs ih =>
    by_cases h : GetHeight b = 0
    · simp [merkleBlockList, h, ih]
    · simp [merkleBlockList, h, ih]

/-- C22: `saveBlocks` deletes all stored blocks first exactly when `replace` is true, then
hands to the bulk put the blocks whose height is not 0, in input order, each as its height and
serialized bytes, so that no entity of height 0 is put; every registered listener then receives
`replace` and the whole block list as it came in. -/
theorem C22_save_blocks {Block : Type} (GetHeight : Block → Nat)
    (Serialize : Block → List Byte) (listeners : List Nat) (replace : Bool)
    (blocks : List Block) :
    saveBlocks GetHeight Serialize listeners replace blocks
      = (if replace then [Effect.DeleteAllBlocks] else []) ++
        [Effect.PutMerkleBlocks ((blocks.filter (fun b => decide (GetHeight b ≠ 0))).map
          (fun b => { blockBytes := Serialize b, blockHeight := GetHeight b }))] ++
        listeners.map (fun l => Effect.listenerSaveBlocks l replace blocks) ∧
    (merkleBlockList GetHeight Serialize blocks).all (fun e => e.blockHeight != 0) = true := by
  refine ⟨by simp [saveBlocks, merkleBlockList_eq], ?_⟩
  rw [merkleBlockList_eq, List.all_eq_true]
  intro e he
  simp only [List.mem_map, List.mem_filter, decide_eq_true_eq] at he
  obtain ⟨b, ⟨-, hb⟩, rfl⟩ := he
  simpa using hb

end SpvService

/-! ## TransactionOutput: JSON keys and the copy constructor -/

namespace TransactionOutput

variable {P : Params}

theorem fromJsonV_new_ok (x y0 : TransactionOutput P) (j jp : Json) (v n : Nat)
    (p0 p1 : OutputPayload P) (hv : P.V09 ≤ v) (h0 : x.fromJson j = .ok y0)
    (hn : j.get? "OutputType" = some (.num n)) (hjp : j.get? "Payload" = some jp)
    (hg : GeneratePayload P (Fin.ofNat (n % 2 ^ 8)) = some p0) (hp : p0.fromJson jp = .ok p1) :
    x.fromJsonV j v
      = .ok { y0 with _outputType := Fin.ofNat (n % 2 ^ 8), _payload := some p1 } := by
  simp only [fromJsonV, h0, bind, Except.bind, pure, Except.pure, ge_iff_le, hv, if_true,
    getUint, hn, hg, hjp, hp]

theorem fromJsonV_new_inv (x y : TransactionOutput P) (j : Json) (v : Nat) (hv : P.V09 ≤ v)
    (h : x.fromJsonV j v = .ok y) :
    ∃ (y0 : TransactionOutput P) (n : Nat) (jp : Json) (p0 p1 : OutputPayload P),
      x.fromJson j = .ok y0 ∧ j.get? "OutputType" = some (.num n) ∧
      j.get? "Payload" = some jp ∧ GeneratePayload P (Fin.ofNat (n % 2 ^ 8)) = some p0 ∧
      p0.fromJson jp = .ok p1 ∧
      y = { y0 with _outputType := Fin.ofNat (n % 2 ^ 8), _payload := some p1 } := by
  simp only [fromJsonV, bind, Except.bind, pure, Except.pure, ge_iff_le, hv, if_true] at h
  split at h
  · cases h
  · rename_i y0 hy0
    split at h
    · cases h
    · rename_i outputType hot
      have hnum : ∃ n, j.get? "OutputType" = some (.num n) ∧ outputType = n % 2 ^ 8 := by
        simp only [getUint] at hot
        split at hot
        · rename_i n hn
          cases hot
          exact ⟨n, hn, rfl⟩
        · cases hot
      obtain ⟨n, hn, rfl⟩ := hnum
      split at h
      · cases h
      · rename_i p0 hp0
        split at h
        · cases h
        · rename_i jp hjp
          split at h
          · cases h
          · rename_i p1 hp1
            cases h
            exact ⟨y0, n, jp, p0, p1, hy0, hn, hjp, hp0, hp1, rfl⟩

/-- C23 (amended): for `v < V09`, `toJson(x, v)` has exactly the keys `Amount`, `AssetId`,
`OutputLock` and `ProgramHash`; for `v >= V09` and an output whose payload is non-null it has
these and the keys `OutputType`, holding the output type, and `Payload`, holding the JSON of
the payload. `fromJson(j, v)` for `v < V09` is `fromJson(j)` and leaves type and payload as
they were; for `v >= V09` it returns exactly when the core keys, `OutputType` and `Payload` are
read with success, and then the type is the one under `OutputType` and the payload is the one
generated for that type and filled from the JSON under `Payload`. -/
theorem C23_json_keys (P : Params) (x : TransactionOutput P) (v : Nat) (j : Json) :
    (v < P.V09 → ∃ j', x.toJsonV v = .ok j' ∧
      j'.keys = ["Amount", "AssetId", "OutputLock", "ProgramHash"]) ∧
    (P.V09 ≤ v → ∀ p, x._payload = some p → ∃ j', x.toJsonV v = .ok j' ∧
      j'.keys = ["Amount", "AssetId", "OutputLock", "ProgramHash", "OutputType", "Payload"] ∧
      j'.get? "OutputType" = some (.num x._outputType.val) ∧
      j'.get? "Payload" = some p.toJson) ∧
    (v < P.V09 → x.fromJsonV j v = x.fromJson j ∧
      ∀ y, x.fromJsonV j v = .ok y →
        y._outputType = x._outputType ∧ y._payload = x._payload) ∧
    (P.V09 ≤ v → j.get? "OutputType" = none → ∃ e, x.fromJsonV j v = .error e) ∧
    (P.V09 ≤ v → ∀ y, x.fromJsonV j v = .ok y →
      ∃ (y0 : TransactionOutput P) (n : Nat) (jp : Json) (p0 p1 : OutputPayload P),
        x.fromJson j = .ok y0 ∧ j.get? "OutputType" = some (.num n) ∧
        j.get? "Payload" = some jp ∧ GeneratePayload P (Fin.ofNat (n % 2 ^ 8)) = some p0 ∧
        p0.fromJson jp = .ok p1 ∧
        y = { y0 with _outputType := Fin.ofNat (n % 2 ^ 8), _payload := some p1 }) ∧
    (P.V09 ≤ v → ∀ (y0 : TransactionOutput P) (n : Nat) (jp : Json) (p0 p1 : OutputPayload P),
      x.fromJson j = .ok y0 → j.get? "OutputType" = some (.num n) →
      j.get? "Payload" = some jp → GeneratePayload P (Fin.ofNat (n % 2 ^ 8)) = some p0 →
      p0.fromJson jp = .ok p1 →
      x.fromJsonV j v
        = .ok { y0 with _outputType := Fin.ofNat (n % 2 ^ 8), _payload := some p1 }) := by
  refine ⟨?_, ?_, ?_, ?_, ?_, ?_⟩
  · intro hv
    have hnv : ¬ P.V09 ≤ v := by omega
    exact ⟨_, toJsonV_old x v hnv, rfl⟩
  · intro hv p hp
    refine ⟨_, toJsonV_new x v hv p hp, rfl, ?_, ?_⟩
    · simp [Json.get?]
    · simp [Json.get?]
  · intro hv
    have hnv : ¬ P.V09 ≤ v := by omega
    have he : x.fromJsonV j v = x.fromJson j := by
      simp only [fromJsonV, bind, Except.bind, pure, Except.pure, ge_iff_le, hnv, if_false]
      cases x.fromJson j <;> rfl
    refine ⟨he, ?_⟩
    intro y hy
    rw [he] at hy
    exact fromJson_keeps x y j hy
  · intro hv hj
    simp only [fromJsonV, bind, Except.bind, ge_iff_le, hv, if_true, getUint, hj]
    cases x.fromJson j with
    | error e => exact ⟨e, rfl⟩
    | ok y => exact ⟨.jsonError, rfl⟩
  · intro hv y hy
    exact fromJsonV_new_inv x y j v hv hy
  · intro hv y0 n jp p0 p1 h0 hn hjp hg hp
    exact fromJsonV_new_ok x y0 j jp v n p0 p1 hv h0 hn hjp hg hp

/-- Witness of `C23_json_keys`: the sample vote output written at versions 0 and 9, and the
sample default output read at version 9 from the JSON of the sample vote output. -/
theorem C23_json_keys_witness :
    ((0 : Nat) < sampleParams.V09 ∧ sampleParams.V09 ≤ 9 ∧
      voteSample._payload = some (.Vote (42 : Byte)) ∧
      (Json.obj []).get? "OutputType" = none) ∧
    (∃ j', voteSample.toJsonV 0 = .ok j' ∧
      j'.keys = ["Amount", "AssetId", "OutputLock", "ProgramHash"]) ∧
    (∃ j', voteSample.toJsonV 9 = .ok j' ∧
      j'.keys = ["Amount", "AssetId", "OutputLock", "ProgramHash", "OutputType", "Payload"] ∧
      j'.get? "OutputType" = some (.num voteSample._outputType.val) ∧
      j'.get? "Payload"
        = some (OutputPayload.Vote (42 : Byte) : OutputPayload sampleParams).toJson) ∧
    voteSample.fromJsonV defaultSample.toJson 0 = voteSample.fromJson defaultSample.toJson ∧
    (∃ e, voteSample.fromJsonV (Json.obj []) 9 = .error e) ∧
    defaultSample.fromJsonV
        (.obj [("Amount", .num 1000), ("AssetId", .str "5"), ("OutputLock", .num 3),
               ("ProgramHash", .str "7"), ("OutputType", .num 1),
               ("Payload", .obj [("Version", .num 42)])]) 9
      = .ok voteSample :=
  ⟨⟨by decide, by decide, rfl, rfl⟩,
    (C23_json_keys sampleParams voteSample 0 (Json.obj [])).1 (by decide),
    (C23_json_keys sampleParams voteSample 9 (Json.obj [])).2.1 (by decide) _ rfl,
    ((C23_json_keys sampleParams voteSample 0 defaultSample.toJson).2.2.1 (by decide)).1,
    (C23_json_keys sampleParams voteSample 9 (Json.obj [])).2.2.2.1 (by decide) rfl,
    (C23_json_keys sampleParams defaultSample 9
      (.obj [("Amount", .num 1000), ("AssetId", .str "5"), ("OutputLock", .num 3),
             ("ProgramHash", .str "7"), ("OutputType", .num 1),
             ("Payload", .obj [("Version", .num 42)])])).2.2.2.2.2 (by decide)
      defaultSample 1 (.obj [("Version", .num 42)]) (.Vote (0 : Byte)) (.Vote (42 : Byte))
      (by rfl) (by rfl) (by rfl) (by rfl) (by rfl)⟩

/-- C23 (counterexample): at version 9 (`V09 = 9`) an output whose payload is null, as
`SetPayload(nullptr)` leaves it, has no JSON form: `toJson(x, v)` dereferences the null payload
after setting `OutputType`, so it contains no key at all. -/
theorem C23_counterexample :
    sampleParams.V09 ≤ 9 ∧
    (voteSample.SetPayload none)._payload = none ∧
    (voteSample.SetPayload none).toJsonV 9 = .error .nullDeref ∧
    (ofProgramHash sampleParams 5 7 3 2 none).toJsonV 9 = .error .nullDeref :=
  ⟨by decide, rfl, rfl, rfl⟩

end TransactionOutput

namespace TransactionOutputObject

variable {P : Params}

end TransactionOutputObject

/-! ## PayloadWithDrawAsset: binary form -/

namespace PayloadWithDrawAsset

theorem foldl_writeBytes (hs : List Nat) (o : ByteStream) :
    hs.foldl (fun o h => ByteStream.writeBytes o sizeofUInt256 h) o = o ++ hashesBytes hs := by
  induction hs generalizing o with
  | nil => simp [hashesBytes]
  | cons h hs ih =>
    rw [List.foldl_cons, ih]
    simp only [hashesBytes, ByteStream.writeBytes, List.append_assoc]

theorem take_set_succ (a : Nat) : ∀ (l : List Nat) (i : Nat), i < l.length →
    (l.set i a).take (i + 1) = l.take i ++ [a] := by
  intro l
  induction l with
  | nil => intro i h; simp at h
  | cons x xs ih =>
    intro i h
    cases i with
    | zero => simp
    | succ i =>
      simp only [List.set_cons_succ, List.take_succ_cons, List.cons_append, List.cons.injEq,
        true_and]
      exact ih i (by simpa using h)

theorem readHashes_hashesBytes (t : ByteStream) :
    ∀ (hs vec : List Nat) (i : Nat), (∀ h ∈ hs, h < 2 ^ 256) → vec.length = i + hs.length →
      readHashes (hashesBytes hs ++ t) vec hs.length i = (true, vec.take i ++ hs, t) := by
  intro hs
  induction hs with
  | nil =>
    intro vec i _ hlen
    simp only [hashesBytes, List.nil_append, List.length_nil, readHashes, List.append_nil]
    rw [List.take_of_length_le (by simp at hlen; omega)]
  | cons h hs ih =>
    intro vec i hr hlen
    have hh : h % 256 ^ sizeofUInt256 = h := by
      have := hr h (by simp)
      apply Nat.mod_eq_of_lt
      norm_num at this ⊢
      omega
    simp only [hashesBytes, List.append_assoc, List.length_cons, readHashes,
      readBytes_toLE_append, hh]
    rw [ih (vec.set i h) (i + 1) (fun x hx => hr x (by simp [hx]))
      (by simp only [List.length_set, List.length_cons] at hlen ⊢; omega)]
    rw [take_set_succ h vec i (by simp only [List.length_cons] at hlen; omega)]
    simp

theorem resize_length (hashes : List Nat) (len : Nat) : (resize hashes len).length = len := by
  simp only [resize, List.length_append, List.length_take, List.length_replicate]
  omega

/-- C26: for a payload `p` whose members fit their types, with the variable-width codec
reading back the address and the hash count it wrote, `Deserialize` on the bytes of
`Serialize(p, v)` followed by any bytes `t`, into a payload object `q` with any previous
contents, returns true, leaves the object equal to `p` in block height, genesis block address
and side-chain transaction hashes, and stops reading exactly at `t`. -/
theorem C26_withdraw_roundtrip (C : VarCodec) (p q : PayloadWithDrawAsset) (v : Nat)
    (t : ByteStream)
    (hheight : p._blockHeight < 2 ^ 32)
    (hhashes : ∀ h ∈ p._sideChainTransactionHash, h < 2 ^ 256)
    (hcount : p._sideChainTransactionHash.length < 2 ^ 64)
    (hstr : ∀ t', C.readVarString (C.writeVarString p._genesisBlockAddress ++ t')
      = some (p._genesisBlockAddress, t'))
    (hvar : ∀ t', C.readVarUint (C.writeVarUint p._sideChainTransactionHash.length ++ t')
      = some (p._sideChainTransactionHash.length, t')) :
    q.Deserialize C (p.Serialize C [] v ++ t) v = (true, p, t) := by
  obtain ⟨ph, pa, phs⟩ := p
  simp only at hheight hhashes hcount hstr hvar
  have hmod : phs.length % 2 ^ 64 = phs.length := Nat.mod_eq_of_lt hcount
  have hh : ph % 256 ^ 4 = ph := by
    apply Nat.mod_eq_of_lt
    norm_num at hheight ⊢
    omega
  have hser : Serialize C ⟨ph, pa, phs⟩ [] v ++ t
      = toLE 4 ph ++ (C.writeVarString pa ++ (C.writeVarUint phs.length
          ++ (hashesBytes phs ++ t))) := by
    simp only [Serialize, foldl_writeBytes, ByteStream.writeUint32, hmod, List.nil_append,
      List.append_assoc]
  rw [hser]
  simp only [Deserialize, ByteStream.readUint32, readBytes_toLE_append, hh, hstr, hvar]
  rw [readHashes_hashesBytes t phs (resize q._sideChainTransactionHash phs.length) 0 hhashes
    (by rw [resize_length]; omega)]
  simp

/-- Witness of `C26_withdraw_roundtrip`: the sample withdraw payload read into an object that
held other contents, with one trailing byte. -/
theorem C26_withdraw_roundtrip_witness :
    (sampleWithDraw._blockHeight < 2 ^ 32 ∧
      (∀ h ∈ sampleWithDraw._sideChainTransactionHash, h < 2 ^ 256) ∧
      sampleWithDraw._sideChainTransactionHash.length < 2 ^ 64) ∧
    (⟨9, "old", [1, 2, 3]⟩ : PayloadWithDrawAsset).Deserialize sampleVarCodec
        (sampleWithDraw.Serialize sampleVarCodec [] 0 ++ [170]) 0
      = (true, sampleWithDraw, [170]) :=
  ⟨⟨by decide, by decide, by decide⟩,
    C26_withdraw_roundtrip sampleVarCodec sampleWithDraw ⟨9, "old", [1, 2, 3]⟩ 0 [170]
      (by decide) (by decide) (by decide)
      (fun t' => by
        show (match ByteStream.readBytes ((toLE 1 2 ++ [88, 81]) ++ t') 1 with
          | none => none
          | some (n, rest) =>
            if n ≤ rest.length then
              some (String.mk ((rest.take n).map (fun b => Char.ofNat b.val)), rest.drop n)
            else none) = some ("XQ", t')
        rw [List.append_assoc, readBytes_toLE_append]
        simp
        decide)
      (fun t' => by
        show ByteStream.readBytes (toLE 1 2 ++ t') 1 = some (2, t')
        rw [readBytes_toLE_append]
        rfl)⟩

end PayloadWithDrawAsset

/-! ## SpvService: the remaining session properties -/

namespace SpvService

/-- C27 (evaluation at the failing input): the two stored rows decode to a coinbase transaction
with 65537 outputs, none of the first 65536 owned, and an ordinary transaction with 65536
inputs. Whatever the number of iterations allowed, neither the scan over those outputs nor the
scan over those inputs finishes, and `loadTransactions` on this finite list does not return:
the 16-bit loop counter wraps to 0 before reaching the size. -/
theorem C27_wide_scans_do_not_finish :
    (loadOne wideDeserialize ⟨[1], 10, 20, "c0"⟩).outputs.length = 65537 ∧
    (loadOne wideDeserialize ⟨[2], 11, 21, "t1"⟩).inputs.length = 65536 ∧
    (∀ fuel, scanOutputs sampleContains (loadOne wideDeserialize ⟨[1], 10, 20, "c0"⟩) fuel 0
      = none) ∧
    (∀ fuel acc, scanInputs (loadOne wideDeserialize ⟨[2], 11, 21, "t1"⟩) fuel 0 acc = none) ∧
    ∀ fuel, loadTransactions wideDeserialize sampleContains fuel
      [⟨[1], 10, 20, "c0"⟩, ⟨[2], 11, 21, "t1"⟩] = none := by
  obtain ⟨-, hout⟩ := wide_outputs 10 20 "c0"
  obtain ⟨-, hin⟩ := wide_inputs 11 21 "t1"
  refine ⟨?_, by rw [hin, List.length_replicate], ?_, ?_, ?_⟩
  · rw [hout, List.length_append, List.length_replicate]
    rfl
  · intro fuel
    refine scanOutputs_none sampleContains _ ?_ fuel 0 (by decide)
    intro i hi
    refine ⟨⟨"B", 1, 0, 0, 8⟩, ?_, by decide⟩
    rw [hout, List.getElem?_append_left (by rw [List.length_replicate]; exact hi)]
    exact List.getElem?_replicate_of_lt hi
  · intro fuel acc
    exact scanInputs_none _ (by rw [hin, List.length_replicate]) fuel 0 acc (by decide)
  · intro fuel
    exact loadTransactions_none wideDeserialize sampleContains fuel ⟨[1], 10, 20, "c0"⟩
      (fun st => loadStep_wide_outputs fuel st 10 20 "c0") _ (by simp)

theorem PublishTransaction_not_connected (M : PeerManagerModel) (s : State) (tx : Transaction)
    (h : s.connectStatus ≠ .Connected) :
    (PublishTransaction M s tx).reconnectEnableStatus = true ∧
    ((PublishTransaction M s tx).trace.drop s.trace.length).count .Connect = 1 := by
  cases ht : s._reconnectTimer <;>
    simp [PublishTransaction, h, ht, State.PublishTransaction, State.Connect,
      State.Disconnect, State.SetReconnectEnableStatus, State.timerCancel, List.count_cons]

/-- C29: in every state whose connection state is not `Connected`, `PublishTransaction` ends
with auto-reconnect enabled and has issued one `Connect`, whatever the flag was before; so it
does in the state produced by `Stop`, where the flag was disabled, when the peer manager is
not connected after its `Disconnect`. -/
theorem C29_publish_reenables_reconnect (M : PeerManagerModel) (s : State) (tx : Transaction) :
    (s.connectStatus ≠ .Connected →
      (PublishTransaction M s tx).reconnectEnableStatus = true ∧
      ((PublishTransaction M s tx).trace.drop s.trace.length).count .Connect = 1) ∧
    (Stop M s).reconnectEnableStatus = false ∧
    ((Stop M s).connectStatus ≠ .Connected →
      (PublishTransaction M (Stop M s) tx).reconnectEnableStatus = true ∧
      ((PublishTransaction M (Stop M s) tx).trace.drop (Stop M s).trace.length).count
        .Connect = 1) :=
  ⟨PublishTransaction_not_connected M s tx, (Stop_flags M s).1,
    PublishTransaction_not_connected M (Stop M s) tx⟩

/-- Witness of `C29_publish_reenables_reconnect`: the sample session disconnected with the flag
off, and the sample session after `Stop`. -/
theorem C29_publish_reenables_reconnect_witness :
    (({ sampleState with connectStatus := .Disconnected,
                         reconnectEnableStatus := false } : State).connectStatus ≠ .Connected ∧
      (Stop samplePeerManager sampleState).connectStatus ≠ .Connected) ∧
    (PublishTransaction samplePeerManager
      { sampleState with connectStatus := .Disconnected, reconnectEnableStatus := false }
      sampleTx).reconnectEnableStatus = true ∧
    (PublishTransaction samplePeerManager (Stop samplePeerManager sampleState)
      sampleTx).reconnectEnableStatus = true :=
  ⟨⟨by decide, by decide⟩,
    ((C29_publish_reenables_reconnect samplePeerManager
      { sampleState with connectStatus := .Disconnected, reconnectEnableStatus := false }
      sampleTx).1 (by decide)).1,
    ((C29_publish_reenables_reconnect samplePeerManager sampleState sampleTx).2.2
      (by decide)).1⟩

theorem ResetReconnect_some (reconnectSeconds : Nat) (s : State) (t : DeadlineTimer)
    (h : s._reconnectTimer = some t) :
    ResetReconnect reconnectSeconds s = .ok
      { s with _reconnectTimer := some { expires := t.expires + reconnectSeconds,
                                         waiting := true },
               trace := s.trace ++ [.timerExpiresAt (t.expires + reconnectSeconds),
                                    .timerAsyncWait] } := by
  simp [ResetReconnect, h]

/-- C30 (evaluation at the failing input): on a freshly constructed session, and on any
session after `Stop`, `_reconnectTimer` is null and `ResetReconnect` dereferences it. -/
theorem C30_reset_reconnect_null_timer :
    (∀ (reconnectSeconds : Nat) (flag : Bool) (count : Nat) (status : ConnectStatus)
      (peers : List PeerInfo) (store : List PeerEntity),
      ResetReconnect reconnectSeconds (construct flag count status peers store)
        = .error .nullDeref) ∧
    (∀ (reconnectSeconds : Nat) (M : PeerManagerModel) (s : State),
      ResetReconnect reconnectSeconds (Stop M s) = .error .nullDeref) ∧
    ResetReconnect 60 (construct true 0 .Disconnected [] []) = .error .nullDeref ∧
    ResetReconnect 60 (Stop samplePeerManager (syncIsInactive samplePeerManager sampleState 30))
      = .error .nullDeref := by
  refine ⟨fun _ _ _ _ _ _ => rfl, ?_, rfl, rfl⟩
  intro r M s
  simp [ResetReconnect, (Stop_flags M s).2.2]

end SpvService

end Elastos.ElaWallet
